import Mathlib

/-!
Verification of the AutoPas particle-simulation library core.

Doubles are modelled as exact rationals (ℚ); machine integers as ℕ/ℤ with
explicit reduction modulo 2^64 where C++ unsigned wraparound matters.
Positions are triples of rationals.
-/

/-- A 3-component vector of rationals, modelling `std::array<double, 3>`. -/
abbrev Vec3 := ℚ × ℚ × ℚ

/-- Componentwise subtraction, modelling `utils::ArrayMath::sub`. -/
def vsub (a b : Vec3) : Vec3 := (a.1 - b.1, a.2.1 - b.2.1, a.2.2 - b.2.2)

/-- Dot product, modelling `utils::ArrayMath::dot`. -/
def vdot (a b : Vec3) : ℚ := a.1 * b.1 + a.2.1 * b.2.1 + a.2.2 * b.2.2

/-- Modelled from the spec: `utils::inBox` (header not included in the sources),
membership in the half-open box `[lo, hi)` componentwise. -/
def inBoxQ (r lo hi : Vec3) : Bool :=
  (lo.1 ≤ r.1 && r.1 < hi.1) && (lo.2.1 ≤ r.2.1 && r.2.1 < hi.2.1) &&
  (lo.2.2 ≤ r.2.2 && r.2.2 < hi.2.2)

/-- Squared Euclidean distance of two positions (the quantity the spec calls
"the squared distance between i and j"). -/
def sqDist (a b : Vec3) : ℚ :=
  (a.1 - b.1)^2 + (a.2.1 - b.2.1)^2 + (a.2.2 - b.2.2)^2

/-! ### FlopCounterFunctor (src/unnamed/part_004) -/

/-- The particle data `FlopCounterFunctor::AoSFunctor` reads: a position and
the dummy flag. -/
structure FlopParticle where
  r : Vec3
  dummy : Bool
deriving DecidableEq

/-- The two atomic counters of `FlopCounterFunctor`. -/
structure FlopCounterState where
  distanceCalculations : ℕ
  kernelCalls : ℕ
deriving DecidableEq

/-- `FlopCounterFunctor::AoSFunctor(i, j, newton3)`: returns the updated
counter state (the `newton3` argument is unused by the source). -/
def FlopCounterFunctor.AoSFunctor (cutoffSquare : ℚ) (s : FlopCounterState)
    (i j : FlopParticle) : FlopCounterState :=
  if i.dummy || j.dummy then s
  else
    let dr := vsub i.r j.r
    let dr2 := vdot dr dr
    let s1 : FlopCounterState :=
      { s with distanceCalculations := s.distanceCalculations + 1 }
    if dr2 ≤ cutoffSquare then { s1 with kernelCalls := s1.kernelCalls + 1 }
    else s1

/-! ### Particles and the ClusterTower of VerletClusterLists -/

/-- The ownership tag of a particle: exactly one of owned, halo, dummy. -/
inductive Ownership
  | owned
  | halo
  | dummyTag
deriving DecidableEq

/-- A particle as the container layer sees it: id, position, ownership. -/
structure Particle where
  id : ℕ
  r : Vec3
  own : Ownership
deriving DecidableEq

/-- VerletClusterLists.h line 38: `static constexpr size_t clusterSize = 4`. -/
def clusterSize : ℕ := 4

/-- The largest finite double, DBL_MAX, as an exact rational:
(2^53 - 1) * 2^971. -/
def dblMax : ℚ := (2 ^ 53 - 1) * 2 ^ 971

/-- The dummy prototype `ClusterTower::dummy`: position
{DBL_MAX, DBL_MAX, DBL_MAX}, id 0 (velocity is not modelled), tagged dummy. -/
def ClusterTower.dummyPrototype : Particle :=
  { id := 0, r := (dblMax, dblMax, dblMax), own := Ownership.dummyTag }

/-- One cluster tower: the flat particle storage `_particles` plus
`_numDummyParticles`.  The clusters `_clusters` are views into `_particles`
at offsets `clusterSize * i` and are modelled as the derived
`ClusterTower.clusters`. -/
structure ClusterTower where
  particles : List Particle
  numDummyParticles : ℕ
deriving DecidableEq

/-- `ClusterTower::getNumActualParticles()`:
`_particles.numParticles() - _numDummyParticles`. -/
def ClusterTower.getNumActualParticles (t : ClusterTower) : ℕ :=
  t.particles.length - t.numDummyParticles

/-- `FullParticleCell::sortByDim(2)`: sort the particles by their z
coordinate (ascending). -/
def ClusterTower.sortByZ (l : List Particle) : List Particle :=
  List.insertionSort (fun a b => a.r.2.2 ≤ b.r.2.2) l

/-- `ClusterTower::generateClusters()`: sort by z, then copy the last particle
as often as necessary to fill up the last cluster. -/
def ClusterTower.generateClusters (t : ClusterTower) : ClusterTower :=
  if 0 < t.getNumActualParticles then
    let sorted := ClusterTower.sortByZ t.particles
    let sizeLastCluster := sorted.length % clusterSize
    let numDummy := if sizeLastCluster ≠ 0 then clusterSize - sizeLastCluster else 0
    let lastParticle := sorted.getD (sorted.length - 1) ClusterTower.dummyPrototype
    { particles := sorted ++ List.replicate numDummy lastParticle,
      numDummyParticles := numDummy }
  else t

/-- The cluster views `_clusters` built by `generateClusters`: for each
`index < numParticles / clusterSize` the 4 consecutive particles starting at
`clusterSize * index`. -/
def ClusterTower.clusters (t : ClusterTower) : List (List Particle) :=
  (List.range (t.particles.length / clusterSize)).map
    (fun i => (t.particles.drop (clusterSize * i)).take clusterSize)

/-- Helper for `fillUpWithDummyParticles`: performs the loop
`for index = 1 .. n: particles[length - index] := dummy with
position {dummyStartX, 0, dummyDistZ * index}` (slot `clusterSize - index` of
the last cluster is slot `length - index` of the flat storage). -/
def ClusterTower.fillDummiesAux (sx dz : ℚ) (ps : List Particle) : ℕ → List Particle
  | 0 => ps
  | k + 1 =>
      let ps1 := ClusterTower.fillDummiesAux sx dz ps k
      ps1.set (ps1.length - (k + 1))
        { ClusterTower.dummyPrototype with r := (sx, 0, dz * (k + 1 : ℕ)) }

/-- `ClusterTower::fillUpWithDummyParticles(dummyStartX, dummyDistZ)`:
replaces the copies of the last particle made in `generateClusters` by the
dummy prototype and then overwrites each dummy's position with
`{dummyStartX, 0, dummyDistZ * index}`. -/
def ClusterTower.fillUpWithDummyParticles (t : ClusterTower)
    (dummyStartX dummyDistZ : ℚ) : ClusterTower :=
  { t with
    particles := ClusterTower.fillDummiesAux dummyStartX dummyDistZ
      t.particles t.numDummyParticles }

/-! ### PredictiveTuning::linePrediction -/

/-- 2^64, the modulus of C++ `unsigned long` / `size_t` arithmetic. -/
def two64 : ℤ := 2 ^ 64

/-- `PredictiveTuning::linePrediction` for one configuration, operating on the
stored history `_traversalTimesStorage[configuration]` (pairs of iteration
(`size_t`, here ℕ) and time (`long`, here ℤ)).  The C++ expression
`(traversal1.second - traversal2.second) / (traversal1.first - traversal2.first)`
divides a `long` by a `size_t`, so both operands convert to `unsigned long`;
likewise the final sum `traversal1.second + gradient * delta` is `unsigned
long`.  Both reductions modulo 2^64 are made explicit. -/
def PredictiveTuning.linePrediction (hist : List (ℕ × ℤ))
    (iterationBeginTuningPhase : ℕ) : ℕ :=
  let traversal1 := hist.getD (hist.length - 1) (0, 0)
  let traversal2 := hist.getD (hist.length - 2) (0, 0)
  let gradient : ℕ :=
    ((traversal1.2 - traversal2.2) % two64).toNat /
      ((((traversal1.1 : ℤ) - (traversal2.1 : ℤ)) % two64).toNat)
  let delta : ℕ :=
    (((iterationBeginTuningPhase : ℤ) - (traversal1.1 : ℤ)) % two64).toNat
  ((traversal1.2 + (gradient * delta : ℕ)) % two64).toNat

/-- The prediction formula as the claim states it: exact linear extrapolation
`t2 + ((t2 - t1) / (i2 - i1)) * (b - i2)` over the rationals, for comparison
with `PredictiveTuning.linePrediction`. -/
def linePredictionExact (i1 t1 i2 t2 b : ℚ) : ℚ :=
  t2 + ((t2 - t1) / (i2 - i1)) * (b - i2)

/-! ### FullSearchMPI search-space partitioning -/

/-- The first enumeration index of rank `worldRank`'s block, from the
FullSearchMPI constructor:
`start = blockSize * worldRank; if (worldRank < remainder) start += worldRank;
else start += remainder;` with `blockSize = totalNumConfigs / worldSize` and
`remainder = totalNumConfigs % worldSize`. -/
def FullSearchMPI.start (totalNumConfigs worldSize worldRank : ℕ) : ℕ :=
  if worldRank < totalNumConfigs % worldSize
    then totalNumConfigs / worldSize * worldRank + worldRank
    else totalNumConfigs / worldSize * worldRank + totalNumConfigs % worldSize

/-- The first enumeration index after rank `worldRank`'s block:
`startNext = blockSize * (worldRank + 1); if (worldRank < remainder)
startNext += worldRank + 1; else startNext += remainder;`. -/
def FullSearchMPI.startNext (totalNumConfigs worldSize worldRank : ℕ) : ℕ :=
  if worldRank < totalNumConfigs % worldSize
    then totalNumConfigs / worldSize * (worldRank + 1) + (worldRank + 1)
    else totalNumConfigs / worldSize * (worldRank + 1) + totalNumConfigs % worldSize

/-- `FullSearchMPI::populateSearchSpace(..., start, startNext)`: walks the
enumeration of all allowed configurations with a counter `i`, skipping while
`i < start` and stopping at `i == startNext`; i.e. it keeps exactly the
configurations with enumeration index in `[start, startNext)`. -/
def FullSearchMPI.populateSearchSpace {α : Type} (configs : List α)
    (start startNext : ℕ) : List α :=
  (configs.take startNext).drop start

/-! ### PredictiveTuning candidate-set selection

Configurations are modelled abstractly by naturals (the 5-tuple structure of
`Configuration` plays no role in the selection logic); `std::set<Configuration>`
becomes `Finset ℕ`, the maps `_configurationPredictions` and `_lastTest`
become total functions. -/

/-- Modelled from the spec: `getOptimum` (in OptimumSelector, not among the
sources) selects the entry with minimal value; this is its value, the "best
prediction".  (Empty search spaces are an error in the source; the default 0
is never used under the claims' hypotheses.) -/
def PredictiveTuning.bestPrediction (searchSpace : Finset ℕ) (pred : ℕ → ℕ) : ℕ :=
  ((searchSpace.image pred).min).untop' 0

/-- Modelled from the spec: the configuration `getOptimum` returns, an argmin
of the predictions.  Which argmin `std::min_element` over the `unordered_map`
meets first is unspecified; the model picks the least such configuration. -/
def PredictiveTuning.theOptimum (searchSpace : Finset ℕ) (pred : ℕ → ℕ) : ℕ :=
  ((searchSpace.filter
    (fun c => pred c = PredictiveTuning.bestPrediction searchSpace pred)).min).untop' 0

/-- `PredictiveTuning::selectOptimalSearchSpace`: returns the pair
(`_optimalSearchSpace`, `_tooLongNotTestedSearchSpace`).  The code emplaces
the optimum, then for every configuration of `_searchSpace` adds it to
`_optimalSearchSpace` if `(float)prediction / optimum <= _relativeOptimumRange`
(modelled as exact rational division) and otherwise to
`_tooLongNotTestedSearchSpace` if
`_tuningIterationsCounter - _lastTest[config] > _maxTuningIterationsWithoutTest`
(unsigned subtraction; `_lastTest` entries never exceed the counter).
On the early return (`_searchSpace.size() == 1` or fewer than 2 completed
tuning phases) no candidate sets are formed. -/
def PredictiveTuning.selectOptimalSearchSpace (searchSpace : Finset ℕ)
    (pred lastTest : ℕ → ℕ) (tuningIterationsCounter : ℕ)
    (relativeOptimumRange : ℚ) (maxTuningIterationsWithoutTest : ℕ) :
    Finset ℕ × Finset ℕ :=
  if searchSpace.card = 1 ∨ tuningIterationsCounter < 2 then (∅, ∅)
  else
    let best := PredictiveTuning.bestPrediction searchSpace pred
    (insert (PredictiveTuning.theOptimum searchSpace pred)
      (searchSpace.filter
        (fun c => (pred c : ℚ) / (best : ℚ) ≤ relativeOptimumRange)),
     searchSpace.filter
      (fun c => ¬ ((pred c : ℚ) / (best : ℚ) ≤ relativeOptimumRange) ∧
        maxTuningIterationsWithoutTest < tuningIterationsCounter - lastTest c))

/-- The set of configurations tested during a tuning phase: `reset` starts at
`_optimalSearchSpace.begin()` and `tune()` advances through
`_optimalSearchSpace` and then through `_tooLongNotTestedSearchSpace` before
`selectOptimalConfiguration` ends the phase; after the early return of
`selectOptimalSearchSpace` the iteration runs through the whole
`_searchSpace` instead. -/
def PredictiveTuning.testedConfigs (searchSpace : Finset ℕ)
    (pred lastTest : ℕ → ℕ) (counter : ℕ) (relRange : ℚ) (maxPhases : ℕ) :
    Finset ℕ :=
  if searchSpace.card = 1 ∨ counter < 2 then searchSpace
  else
    (PredictiveTuning.selectOptimalSearchSpace searchSpace pred lastTest
        counter relRange maxPhases).1 ∪
    (PredictiveTuning.selectOptimalSearchSpace searchSpace pred lastTest
        counter relRange maxPhases).2

/-! ### DirectSum container (src/unnamed/part_002) -/

/-- The DirectSum container: the bounding box plus its two cells —
`_cells.at(0)` (owned) and `_cells.at(1)` (halo). -/
structure DirectSumC where
  boxMin : Vec3
  boxMax : Vec3
  ownedCell : List Particle
  haloCell : List Particle
deriving DecidableEq

/-- `DirectSum::addParticle(p)`: appends `p` to the owned cell when
`inBox(p.getR(), boxMin, boxMax)`, otherwise raises the unrecoverable
exception with the source's literal diagnostic.  The raise happens instead of
any mutation, so the container state is unchanged on the error branch. -/
def DirectSumC.addParticle (c : DirectSumC) (p : Particle) :
    Except String DirectSumC :=
  let inBox := inBoxQ p.r c.boxMin c.boxMax
  if inBox then Except.ok { c with ownedCell := c.ownedCell ++ [p] }
  else Except.error
    "DirectSum: trying to add particle that is not in the bounding box"

/-- `DirectSum::addHaloParticle(p)`: appends `p` to the halo cell when the
position is NOT in the box, otherwise raises the unrecoverable exception with
the source's literal diagnostic (its two adjacent string literals
concatenated). -/
def DirectSumC.addHaloParticle (c : DirectSumC) (p : Particle) :
    Except String DirectSumC :=
  let inBox := inBoxQ p.r c.boxMin c.boxMax
  if !inBox then Except.ok { c with haloCell := c.haloCell ++ [p] }
  else Except.error
    "DirectSum: trying to add particle that is not OUTSIDE of the bounding box"

/-! ### ReferenceLinkedCells and VerletClusterLists updateContainer

The reference indirection of `ReferenceLinkedCells` (a central particle
vector, cells holding pointers) is collapsed: a stored particle is modelled
as sitting in the cell whose reference list holds it.  The cell grid
(`CellBlock3D`, not among the sources) is modelled from the spec: a list of
cells, each with its bounding box (`getCellBoundingBox`) and halo flag, plus
the position-to-cell map `getContainingCell`. -/

/-- A cell of the reference linked-cells container: bounding box, halo flag,
stored particles. -/
structure RLCCell where
  lo : Vec3
  hi : Vec3
  isHalo : Bool
  ps : List Particle
deriving DecidableEq

/-- The reference linked-cells container. `containing` is the spec-modelled
`CellBlock3D::getContainingCell` index map. -/
structure RLC where
  boxMin : Vec3
  boxMax : Vec3
  cells : List RLCCell
  containing : Vec3 → ℕ

/-- Replace the element at index `i` (no-op when out of range). -/
def modifyIdx {α : Type} : List α → ℕ → (α → α) → List α
  | [], _, _ => []
  | a :: as, 0, f => f a :: as
  | a :: as, n + 1, f => a :: modifyIdx as n f

/-- `ReferenceLinkedCells::addParticle(p)` (as used by `updateContainer` for
re-insertion): the particle ends up referenced by the cell containing its
position. -/
def RLC.addParticle (c : RLC) (p : Particle) : RLC :=
  { c with
    cells := modifyIdx c.cells (c.containing p.r)
      (fun cell => { cell with ps := cell.ps ++ [p] }) }

/-- `deleteHaloParticles()`: `_cellBlock.clearHaloCells()` clears every halo
cell. -/
def RLC.deleteHaloParticles (c : RLC) : RLC :=
  { c with
    cells := c.cells.map
      (fun cell => if cell.isHalo then { cell with ps := [] } else cell) }

/-- The collection loop of `updateContainer`: every particle that is no
longer inside its cell's bounding box (`utils::notInBox(pIter->getR(),
cellLowerCorner, cellUpperCorner)`). -/
def RLC.collectLeavingCell (c : RLC) : List Particle :=
  c.cells.flatMap
    (fun cell => cell.ps.filter (fun p => !(inBoxQ p.r cell.lo cell.hi)))

/-- The deletion half of the collection loop: the collected particles are
removed (`internal::deleteParticle(pIter)`) from their cells. -/
def RLC.removeLeavingCell (c : RLC) : RLC :=
  { c with
    cells := c.cells.map
      (fun cell => { cell with
        ps := cell.ps.filter (fun p => inBoxQ p.r cell.lo cell.hi) }) }

/-- `ReferenceLinkedCells::updateContainer()`: delete halo particles; collect
every particle that is no longer inside its cell's bounding box and remove it
from the cell; re-add the collected particles that are still inside
`[boxMin, boxMax)`; return the rest. -/
def RLC.updateContainer (c : RLC) : RLC × List Particle :=
  let c1 := c.deleteHaloParticles
  let myInvalidParticles := c1.collectLeavingCell
  let kept := c1.removeLeavingCell
  let readded := (myInvalidParticles.filter
      (fun p => inBoxQ p.r c.boxMin c.boxMax)).foldl RLC.addParticle kept
  (readded, myInvalidParticles.filter
    (fun p => !(inBoxQ p.r c.boxMin c.boxMax)))

/-- How often the particle `p` is stored in the container (sum of its
occurrences over all cells). -/
def RLC.storedCount (c : RLC) (p : Particle) : ℕ :=
  (c.cells.map (fun cell => cell.ps.count p)).sum

/-- The VerletClusterLists container: the box and the towers (tower-internal
cluster structure is irrelevant to `updateContainer`). -/
structure VCL where
  boxMin : Vec3
  boxMax : Vec3
  towers : List (List Particle)
deriving DecidableEq

/-- Modelled from the spec: `internal::deleteParticle(iterator)` marks the
particle dummy in place; the container compacts on the next update. -/
def markDummy (p : Particle) : Particle := { p with own := Ownership.dummyTag }

/-- `VerletClusterLists::deleteHaloParticles()`: iterate over all non-dummy
particles (the iterator of this container ignores the requested behavior) and
mark every non-owned one as dummy. -/
def VCL.deleteHaloParticles (c : VCL) : VCL :=
  { c with
    towers := c.towers.map (fun tw => tw.map (fun p =>
      if p.own = Ownership.dummyTag then p
      else if p.own = Ownership.owned then p
      else markDummy p)) }

/-- `VerletClusterLists::updateContainer()`: delete halo particles, then
collect and delete (mark dummy) every remaining non-dummy particle whose
position is outside `[boxMin, boxMax)`; return the collected particles. -/
def VCL.updateContainer (c : VCL) : VCL × List Particle :=
  let c1 := c.deleteHaloParticles
  let invalidParticles := c1.towers.flatMap (fun tw => tw.filter (fun p =>
      !(decide (p.own = Ownership.dummyTag)) && !(inBoxQ p.r c.boxMin c.boxMax)))
  let c2 : VCL := { c1 with
    towers := c1.towers.map (fun tw => tw.map (fun p =>
      if p.own ≠ Ownership.dummyTag ∧ inBoxQ p.r c.boxMin c.boxMax = false
        then markDummy p else p)) }
  (c2, invalidParticles)

/-- How often the particle `p` is stored in the container as a non-dummy
particle (deleted particles are dummies-in-place until the next compaction). -/
def VCL.storedCount (c : VCL) (p : Particle) : ℕ :=
  (c.towers.map (fun tw =>
    (tw.filter (fun q => !(decide (q.own = Ownership.dummyTag)))).count p)).sum

/-! ### The c08 base step (C08BasedTraversal) -/

/-- Modelled from the spec: `ThreeDimensionalMapping::threeToOneD(x, y, z,
dims)` (utils/ThreeDimensionalMapping.h is not among the sources), the 3D→1D
cell-index mapping of the cell block: x fastest, then y, then z. -/
def threeToOneD (x y z : ℕ) (dims : ℕ × ℕ × ℕ) : ℕ :=
  x + dims.1 * (y + dims.2.1 * z)

/-- The 14 cell-pair offsets `_cellPairOffsets` computed by
`C08BasedTraversal::computeOffsets()`, in source order. -/
def cellPairOffsets (dims : ℕ × ℕ × ℕ) : List (ℕ × ℕ) :=
  let o := threeToOneD 0 0 0 dims
  let x := threeToOneD 1 0 0 dims
  let y := threeToOneD 0 1 0 dims
  let z := threeToOneD 0 0 1 dims
  let xy := threeToOneD 1 1 0 dims
  let yz := threeToOneD 0 1 1 dims
  let xz := threeToOneD 1 0 1 dims
  let xyz := threeToOneD 1 1 1 dims
  [(o, o), (o, y), (y, z), (o, z), (o, yz),
   (x, yz), (x, y), (x, z), (o, x), (o, xy),
   (xy, z), (y, xz), (o, xz), (o, xyz)]

/-- A task scheduled by `processBaseCell`: a self-cell interaction
(`processCell`) or an ordered cell-pair interaction (`processCellPair`),
by flat cell index. -/
inductive C08Task
  | self (cellIndex : ℕ)
  | pairT (cellIndex1 cellIndex2 : ℕ)
deriving DecidableEq

/-- `C08BasedTraversal::processBaseCell(baseIndex)`: for each of the 14 pair
offsets schedule `processCell(cell1)` when the two cell indices coincide and
`processCellPair(cell1, cell2)` otherwise. -/
def processBaseCell (dims : ℕ × ℕ × ℕ) (baseIndex : ℕ) : List C08Task :=
  (cellPairOffsets dims).map (fun pr =>
    if baseIndex + pr.1 = baseIndex + pr.2 then C08Task.self (baseIndex + pr.1)
    else C08Task.pairT (baseIndex + pr.1) (baseIndex + pr.2))

/-- The `j`-th task of `processBaseCell` (defaulting past the 14 entries). -/
def taskAt (dims : ℕ × ℕ × ℕ) (baseIndex : ℕ) (j : ℕ) : C08Task :=
  (processBaseCell dims baseIndex).getD j (C08Task.self 0)

/-- The cell-pair offsets at the 3D-coordinate level: the same 14 entries of
`computeOffsets()` before flattening through `threeToOneD` (o = (0,0,0),
x = (1,0,0), y = (0,1,0), z = (0,0,1), ...). -/
def coordOffsets : List ((ℕ × ℕ × ℕ) × (ℕ × ℕ × ℕ)) :=
  [((0, 0, 0), (0, 0, 0)), ((0, 0, 0), (0, 1, 0)), ((0, 1, 0), (0, 0, 1)),
   ((0, 0, 0), (0, 0, 1)), ((0, 0, 0), (0, 1, 1)),
   ((1, 0, 0), (0, 1, 1)), ((1, 0, 0), (0, 1, 0)), ((1, 0, 0), (0, 0, 1)),
   ((0, 0, 0), (1, 0, 0)), ((0, 0, 0), (1, 1, 0)),
   ((1, 1, 0), (0, 0, 1)), ((0, 1, 0), (1, 0, 1)), ((0, 0, 0), (1, 0, 1)),
   ((0, 0, 0), (1, 1, 1))]

/-- Flat index of a 3D cell coordinate. -/
def flatIndex (dims : ℕ × ℕ × ℕ) (a : ℕ × ℕ × ℕ) : ℕ :=
  threeToOneD a.1 a.2.1 a.2.2 dims

/-- Componentwise addition of coordinate triples. -/
def cadd (a u : ℕ × ℕ × ℕ) : ℕ × ℕ × ℕ :=
  (a.1 + u.1, a.2.1 + u.2.1, a.2.2 + u.2.2)

/-- Componentwise minimum of coordinate triples. -/
def cmin (a b : ℕ × ℕ × ℕ) : ℕ × ℕ × ℕ :=
  (min a.1 b.1, min a.2.1 b.2.1, min a.2.2 b.2.2)

/-- Membership in the cell grid. -/
def inGrid (dims : ℕ × ℕ × ℕ) (a : ℕ × ℕ × ℕ) : Prop :=
  a.1 < dims.1 ∧ a.2.1 < dims.2.1 ∧ a.2.2 < dims.2.2

/-- Modelled from the spec: the traversed range of base cells of the c08
traversal — every cell whose forward 2x2x2 block still fits in the grid
(each coordinate below the respective dimension minus one). -/
def inBaseRange (dims : ℕ × ℕ × ℕ) (b : ℕ × ℕ × ℕ) : Prop :=
  b.1 + 1 < dims.1 ∧ b.2.1 + 1 < dims.2.1 ∧ b.2.2 + 1 < dims.2.2

/-- Two cells are 3x3x3-adjacent: they differ by at most one in every
coordinate. -/
def adjacent3 (a b : ℕ × ℕ × ℕ) : Prop :=
  (a.1 ≤ b.1 + 1 ∧ b.1 ≤ a.1 + 1) ∧ (a.2.1 ≤ b.2.1 + 1 ∧ b.2.1 ≤ a.2.1 + 1) ∧
  (a.2.2 ≤ b.2.2 + 1 ∧ b.2.2 ≤ a.2.2 + 1)

/-- A task schedules the unordered pair of flat cell indices `{i, j}`. -/
def schedulesPair (t : C08Task) (i j : ℕ) : Prop :=
  t = C08Task.pairT i j ∨ t = C08Task.pairT j i

/-- The per-entry match relation the coverage argument pivots on: entry `k`
carries exactly the unordered coordinate-offset pair `{u, v}`. -/
def matchesAt (k : Fin 14) (u v : (ℕ × ℕ × ℕ)) : Prop :=
  coordOffsets.getD k.1 ((0, 0, 0), (0, 0, 0)) = (u, v) ∨
  coordOffsets.getD k.1 ((0, 0, 0), (0, 0, 0)) = (v, u)


instance (dims a : ℕ × ℕ × ℕ) : Decidable (inGrid dims a) := by
  unfold inGrid
  infer_instance

instance (dims b : ℕ × ℕ × ℕ) : Decidable (inBaseRange dims b) := by
  unfold inBaseRange
  infer_instance

instance (a b : ℕ × ℕ × ℕ) : Decidable (adjacent3 a b) := by
  unfold adjacent3
  infer_instance

instance (t : C08Task) (i j : ℕ) : Decidable (schedulesPair t i j) := by
  unfold schedulesPair
  infer_instance

instance (k : Fin 14) (u v : (ℕ × ℕ × ℕ)) : Decidable (matchesAt k u v) := by
  unfold matchesAt
  infer_instance


/-! ### ParticleClassLibrary (src/unnamed/part_000) and the reference mixing
rule of ParticlePropertiesLibraryTest.cpp -/

/-- `ParticleClassLibrary::mixingE(i, j) = sqrt(Epsilon.at(i) + Epsilon.at(j))`.
The `Epsilon` map is modelled as a function on type ids. -/
noncomputable def ParticleClassLibrary.mixingE (Epsilon : ℕ → ℝ) (i j : ℕ) : ℝ :=
  Real.sqrt (Epsilon i + Epsilon j)

/-- `ParticleClassLibrary::mixing24E(i, j) = 24 * sqrt(Epsilon.at(i) + Epsilon.at(j))`. -/
noncomputable def ParticleClassLibrary.mixing24E (Epsilon : ℕ → ℝ) (i j : ℕ) : ℝ :=
  24 * Real.sqrt (Epsilon i + Epsilon j)

/-- The reference rule of the test suite:
`ParticlePropertiesLibraryTest::mixingE(e1, e2) = std::sqrt(e1 * e2)`. -/
noncomputable def ParticlePropertiesLibraryTest.mixingE (e1 e2 : ℝ) : ℝ :=
  Real.sqrt (e1 * e2)

/-! ### Theorems -/

/-- C10: `FlopCounterFunctor::AoSFunctor` leaves both counters unchanged when
`i` or `j` is a dummy; otherwise it increments the distance-calculation counter
by exactly 1 and increments the kernel-call counter by exactly 1 if and only if
the squared distance between `i` and `j` is at most cutoff squared (the
boundary counts as a kernel call). -/
theorem flopCounter_aosFunctor_correct (cutoff : ℚ) (s : FlopCounterState)
    (i j : FlopParticle) :
    ((i.dummy || j.dummy) = true →
      FlopCounterFunctor.AoSFunctor (cutoff * cutoff) s i j = s) ∧
    ((i.dummy || j.dummy) = false →
      (FlopCounterFunctor.AoSFunctor (cutoff * cutoff) s i j).distanceCalculations
          = s.distanceCalculations + 1 ∧
      ((FlopCounterFunctor.AoSFunctor (cutoff * cutoff) s i j).kernelCalls
          = s.kernelCalls + 1 ↔ sqDist i.r j.r ≤ cutoff ^ 2) ∧
      ((FlopCounterFunctor.AoSFunctor (cutoff * cutoff) s i j).kernelCalls
          = s.kernelCalls ↔ ¬ sqDist i.r j.r ≤ cutoff ^ 2)) := by
  have hdr : vdot (vsub i.r j.r) (vsub i.r j.r) = sqDist i.r j.r := by
    simp only [vdot, vsub, sqDist]; ring
  constructor
  · intro h
    simp [FlopCounterFunctor.AoSFunctor, h]
  · intro h
    have hc : cutoff * cutoff = cutoff ^ 2 := by ring
    by_cases hle : sqDist i.r j.r ≤ cutoff ^ 2 <;>
      simp [FlopCounterFunctor.AoSFunctor, h, hdr, hc, hle]

/-- Witness for C10 at a concrete input: two non-dummy particles at distance 1
with cutoff 1 produce one distance calculation and one kernel call. -/
theorem flopCounter_aosFunctor_correct_witness :
    ((((false : Bool) || false) = true →
      FlopCounterFunctor.AoSFunctor ((1 : ℚ) * 1) ⟨0, 0⟩
        ⟨(0, 0, 0), false⟩ ⟨(1, 0, 0), false⟩ = ⟨0, 0⟩) ∧
    (((false : Bool) || false) = false →
      (FlopCounterFunctor.AoSFunctor ((1 : ℚ) * 1) ⟨0, 0⟩
        ⟨(0, 0, 0), false⟩ ⟨(1, 0, 0), false⟩).distanceCalculations = 0 + 1 ∧
      ((FlopCounterFunctor.AoSFunctor ((1 : ℚ) * 1) ⟨0, 0⟩
        ⟨(0, 0, 0), false⟩ ⟨(1, 0, 0), false⟩).kernelCalls = 0 + 1 ↔
          sqDist (0, 0, 0) (1, 0, 0) ≤ (1 : ℚ) ^ 2) ∧
      ((FlopCounterFunctor.AoSFunctor ((1 : ℚ) * 1) ⟨0, 0⟩
        ⟨(0, 0, 0), false⟩ ⟨(1, 0, 0), false⟩).kernelCalls = 0 ↔
          ¬ sqDist (0, 0, 0) (1, 0, 0) ≤ (1 : ℚ) ^ 2))) :=
  flopCounter_aosFunctor_correct 1 ⟨0, 0⟩ ⟨(0, 0, 0), false⟩ ⟨(1, 0, 0), false⟩

/-- C9: `ParticleClassLibrary::mixingE(i, j)` computes `sqrt(ε_i + ε_j)`
(so its square is the SUM of the epsilons), `mixing24E` is 24 times it, while
the reference rule implemented by the test squares to the PRODUCT; on the
concrete input `ε_i = ε_j = 1` the two rules disagree. -/
theorem mixingE_sum_vs_product_rule (Epsilon : ℕ → ℝ) (i j : ℕ)
    (hi : 0 ≤ Epsilon i) (hj : 0 ≤ Epsilon j) :
    ParticleClassLibrary.mixingE Epsilon i j ^ 2 = Epsilon i + Epsilon j ∧
    ParticleClassLibrary.mixing24E Epsilon i j
      = 24 * ParticleClassLibrary.mixingE Epsilon i j ∧
    ParticlePropertiesLibraryTest.mixingE (Epsilon i) (Epsilon j) ^ 2
      = Epsilon i * Epsilon j ∧
    ParticleClassLibrary.mixingE (fun _ => (1 : ℝ)) 0 0
      ≠ ParticlePropertiesLibraryTest.mixingE 1 1 := by
  refine ⟨?_, rfl, ?_, ?_⟩
  · rw [ParticleClassLibrary.mixingE, sq, Real.mul_self_sqrt (by linarith)]
  · rw [ParticlePropertiesLibraryTest.mixingE, sq,
      Real.mul_self_sqrt (mul_nonneg hi hj)]
  · rw [ParticleClassLibrary.mixingE, ParticlePropertiesLibraryTest.mixingE]
    intro h
    have h2 : Real.sqrt (1 + 1) ^ 2 = Real.sqrt (1 * 1) ^ 2 := by rw [h]
    rw [Real.sq_sqrt (by norm_num), Real.sq_sqrt (by norm_num)] at h2
    norm_num at h2

/-- Witness for C9 at the concrete input `ε = 1` everywhere. -/
theorem mixingE_sum_vs_product_rule_witness :
    ParticleClassLibrary.mixingE (fun _ => (1 : ℝ)) 0 0 ^ 2 = 1 + 1 ∧
    ParticleClassLibrary.mixing24E (fun _ => (1 : ℝ)) 0 0
      = 24 * ParticleClassLibrary.mixingE (fun _ => (1 : ℝ)) 0 0 ∧
    ParticlePropertiesLibraryTest.mixingE 1 1 ^ 2 = 1 * 1 ∧
    ParticleClassLibrary.mixingE (fun _ => (1 : ℝ)) 0 0
      ≠ ParticlePropertiesLibraryTest.mixingE 1 1 :=
  mixingE_sum_vs_product_rule (fun _ => (1 : ℝ)) 0 0 (by norm_num) (by norm_num)

/-- Unfolding lemma for `generateClusters` in the nonempty case. -/
theorem generateClusters_eq (t : ClusterTower) (h : 0 < t.getNumActualParticles) :
    t.generateClusters =
      { particles := ClusterTower.sortByZ t.particles ++
          List.replicate
            (if (ClusterTower.sortByZ t.particles).length % clusterSize ≠ 0
              then clusterSize - (ClusterTower.sortByZ t.particles).length % clusterSize
              else 0)
            ((ClusterTower.sortByZ t.particles).getD
              ((ClusterTower.sortByZ t.particles).length - 1)
              ClusterTower.dummyPrototype),
        numDummyParticles :=
          if (ClusterTower.sortByZ t.particles).length % clusterSize ≠ 0
            then clusterSize - (ClusterTower.sortByZ t.particles).length % clusterSize
            else 0 } := by
  rw [ClusterTower.generateClusters, if_pos h]

/-- Sorting `_particles` by z does not change the particle count. -/
theorem sortByZ_length (l : List Particle) :
    (ClusterTower.sortByZ l).length = l.length :=
  (List.perm_insertionSort _ l).length_eq

/-- C3: for a tower holding `N ≥ 1` actual particles, `generateClusters`
produces `ceil(N/4)` clusters of exactly `clusterSize = 4` slots each (the
stored particle count becomes a multiple of 4), the number of padding entries
is exactly `(4 - N mod 4) mod 4`, and `getNumActualParticles` still returns
`N`. -/
theorem generateClusters_spec (t : ClusterTower)
    (h0 : t.numDummyParticles = 0) (hN : 1 ≤ t.particles.length) :
    (t.generateClusters).particles.length
        = clusterSize * ((t.particles.length + clusterSize - 1) / clusterSize) ∧
    (t.generateClusters).particles.length % clusterSize = 0 ∧
    (t.generateClusters).clusters.length
        = (t.particles.length + clusterSize - 1) / clusterSize ∧
    (∀ c ∈ (t.generateClusters).clusters, c.length = clusterSize) ∧
    (t.generateClusters).numDummyParticles
        = (clusterSize - t.particles.length % clusterSize) % clusterSize ∧
    (t.generateClusters).getNumActualParticles = t.particles.length := by
  have hguard : 0 < t.getNumActualParticles := by
    rw [ClusterTower.getNumActualParticles, h0]; omega
  rw [generateClusters_eq t hguard]
  have hS : (ClusterTower.sortByZ t.particles).length = t.particles.length :=
    sortByZ_length t.particles
  simp only [ClusterTower.clusters, ClusterTower.getNumActualParticles,
    List.length_append, List.length_replicate, List.length_map,
    List.length_range, hS, clusterSize]
  refine ⟨by split <;> omega, by split <;> omega, by split <;> omega, ?_,
    by split <;> omega, by split <;> omega⟩
  intro c hc
  simp only [List.mem_map, List.mem_range] at hc
  obtain ⟨i, hi, hceq⟩ := hc
  subst hceq
  simp only [List.length_take, List.length_drop, List.length_append,
    List.length_replicate, hS]
  revert hi
  split <;> (intro hi; omega)

/-- Witness for C3 at a concrete tower holding one particle: one cluster of 4
slots, 3 padding entries, 1 actual particle. -/
theorem generateClusters_spec_witness :
    ((⟨[⟨0, (0, 0, 0), Ownership.owned⟩], 0⟩ : ClusterTower).generateClusters).particles.length
        = clusterSize * ((1 + clusterSize - 1) / clusterSize) ∧
    ((⟨[⟨0, (0, 0, 0), Ownership.owned⟩], 0⟩ : ClusterTower).generateClusters).particles.length % clusterSize = 0 ∧
    ((⟨[⟨0, (0, 0, 0), Ownership.owned⟩], 0⟩ : ClusterTower).generateClusters).clusters.length
        = (1 + clusterSize - 1) / clusterSize ∧
    (∀ c ∈ ((⟨[⟨0, (0, 0, 0), Ownership.owned⟩], 0⟩ : ClusterTower).generateClusters).clusters,
        c.length = clusterSize) ∧
    ((⟨[⟨0, (0, 0, 0), Ownership.owned⟩], 0⟩ : ClusterTower).generateClusters).numDummyParticles
        = (clusterSize - 1 % clusterSize) % clusterSize ∧
    ((⟨[⟨0, (0, 0, 0), Ownership.owned⟩], 0⟩ : ClusterTower).generateClusters).getNumActualParticles = 1 :=
  generateClusters_spec ⟨[⟨0, (0, 0, 0), Ownership.owned⟩], 0⟩ rfl (by decide)

/-- The dummy-filling loop does not change the particle count. -/
theorem fillDummiesAux_length (sx dz : ℚ) (ps : List Particle) (n : ℕ) :
    (ClusterTower.fillDummiesAux sx dz ps n).length = ps.length := by
  induction n with
  | zero => rfl
  | succ k ih => simp only [ClusterTower.fillDummiesAux, List.length_set, ih]

/-- After the dummy-filling loop has run up to `n`, slot `length - k` (for
`1 ≤ k ≤ n`) holds the dummy prototype with position
`{dummyStartX, 0, dummyDistZ * k}`. -/
theorem fillDummiesAux_getD_dummy (sx dz : ℚ) (ps : List Particle) (n k : ℕ)
    (hn : n ≤ ps.length) (hk1 : 1 ≤ k) (hkn : k ≤ n) :
    (ClusterTower.fillDummiesAux sx dz ps n).getD (ps.length - k)
        ClusterTower.dummyPrototype
      = { ClusterTower.dummyPrototype with r := (sx, 0, dz * (k : ℕ)) } := by
  induction n with
  | zero => omega
  | succ m ih =>
    simp only [ClusterTower.fillDummiesAux]
    have hlen : (ClusterTower.fillDummiesAux sx dz ps m).length = ps.length :=
      fillDummiesAux_length sx dz ps m
    by_cases hkm : k = m + 1
    · subst hkm
      rw [List.getD_eq_getElem?_getD, hlen,
        List.getElem?_set_self (by rw [hlen]; omega)]
      rfl
    · rw [List.getD_eq_getElem?_getD, hlen, List.getElem?_set_ne (by omega),
        ← List.getD_eq_getElem?_getD]
      exact ih (by omega) (by omega)

/-- Slots below `length - n` are untouched by the dummy-filling loop. -/
theorem fillDummiesAux_getD_low (sx dz : ℚ) (ps : List Particle) (n idx : ℕ)
    (hidx : idx < ps.length - n) :
    (ClusterTower.fillDummiesAux sx dz ps n).getD idx ClusterTower.dummyPrototype
      = ps.getD idx ClusterTower.dummyPrototype := by
  induction n with
  | zero => rfl
  | succ m ih =>
    simp only [ClusterTower.fillDummiesAux]
    have hlen : (ClusterTower.fillDummiesAux sx dz ps m).length = ps.length :=
      fillDummiesAux_length sx dz ps m
    rw [List.getD_eq_getElem?_getD, hlen, List.getElem?_set_ne (by omega),
      ← List.getD_eq_getElem?_getD]
    exact ih (by omega)

/-- C4 (amended): after `generateClusters` and
`fillUpWithDummyParticles(dummyStartX, dummyDistZ)`, the `k`-th padding dummy
(counting `k = 1 ..` from the last slot of the last cluster) has position
`{dummyStartX, 0, dummyDistZ * k}` — the prototype `ClusterTower::dummy` whose
position is `{DBL_MAX, DBL_MAX, DBL_MAX}` is written into the slot, but its
position is immediately overwritten via `setR` — and all actual-particle slots
are untouched. -/
theorem fillUpWithDummyParticles_spec (t : ClusterTower) (sx dz : ℚ)
    (h0 : t.numDummyParticles = 0) (hN : 1 ≤ t.particles.length) :
    ClusterTower.dummyPrototype.r = (dblMax, dblMax, dblMax) ∧
    (((t.generateClusters).fillUpWithDummyParticles sx dz).particles.length
        = (t.generateClusters).particles.length) ∧
    (∀ k, 1 ≤ k → k ≤ (t.generateClusters).numDummyParticles →
      ((t.generateClusters).fillUpWithDummyParticles sx dz).particles.getD
          ((t.generateClusters).particles.length - k) ClusterTower.dummyPrototype
        = { ClusterTower.dummyPrototype with r := (sx, 0, dz * (k : ℕ)) }) ∧
    (∀ idx, idx < (t.generateClusters).particles.length
        - (t.generateClusters).numDummyParticles →
      ((t.generateClusters).fillUpWithDummyParticles sx dz).particles.getD idx
          ClusterTower.dummyPrototype
        = (t.generateClusters).particles.getD idx ClusterTower.dummyPrototype) := by
  have hspec := generateClusters_spec t h0 hN
  have hndle : (t.generateClusters).numDummyParticles
      ≤ (t.generateClusters).particles.length := by
    rw [hspec.2.2.2.2.1, hspec.1]
    simp only [clusterSize]
    omega
  refine ⟨rfl, ?_, ?_, ?_⟩
  · exact fillDummiesAux_length sx dz _ _
  · intro k hk1 hk2
    exact fillDummiesAux_getD_dummy sx dz _ _ k hndle hk1 hk2
  · intro idx hidx
    exact fillDummiesAux_getD_low sx dz _ _ idx hidx

/-- Witness for the amended C4 at a concrete one-particle tower with
`dummyStartX = 5`, `dummyDistZ = 1`. -/
theorem fillUpWithDummyParticles_spec_witness :
    ClusterTower.dummyPrototype.r = (dblMax, dblMax, dblMax) ∧
    ((((⟨[⟨0, (0, 0, 0), Ownership.owned⟩], 0⟩ : ClusterTower).generateClusters).fillUpWithDummyParticles 5 1).particles.length
        = ((⟨[⟨0, (0, 0, 0), Ownership.owned⟩], 0⟩ : ClusterTower).generateClusters).particles.length) ∧
    (∀ k, 1 ≤ k → k ≤ ((⟨[⟨0, (0, 0, 0), Ownership.owned⟩], 0⟩ : ClusterTower).generateClusters).numDummyParticles →
      (((⟨[⟨0, (0, 0, 0), Ownership.owned⟩], 0⟩ : ClusterTower).generateClusters).fillUpWithDummyParticles 5 1).particles.getD
          (((⟨[⟨0, (0, 0, 0), Ownership.owned⟩], 0⟩ : ClusterTower).generateClusters).particles.length - k) ClusterTower.dummyPrototype
        = { ClusterTower.dummyPrototype with r := (5, 0, (1 : ℚ) * (k : ℕ)) }) ∧
    (∀ idx, idx < ((⟨[⟨0, (0, 0, 0), Ownership.owned⟩], 0⟩ : ClusterTower).generateClusters).particles.length
        - ((⟨[⟨0, (0, 0, 0), Ownership.owned⟩], 0⟩ : ClusterTower).generateClusters).numDummyParticles →
      (((⟨[⟨0, (0, 0, 0), Ownership.owned⟩], 0⟩ : ClusterTower).generateClusters).fillUpWithDummyParticles 5 1).particles.getD idx
          ClusterTower.dummyPrototype
        = ((⟨[⟨0, (0, 0, 0), Ownership.owned⟩], 0⟩ : ClusterTower).generateClusters).particles.getD idx ClusterTower.dummyPrototype) :=
  fillUpWithDummyParticles_spec ⟨[⟨0, (0, 0, 0), Ownership.owned⟩], 0⟩ 5 1 rfl (by decide)

/-- C4 counterexample: in a rebuilt one-particle tower (3 padding dummies,
`dummyStartX = 5`, `dummyDistZ = 1`) the padding dummies do NOT carry the
position `{DBL_MAX, DBL_MAX, DBL_MAX}`: `fillUpWithDummyParticles` overwrites
the prototype's position (the first padding dummy ends at `{5, 0, 1}`). -/
theorem fillUpWithDummyParticles_counterexample :
    ¬ (∀ k, 1 ≤ k →
        k ≤ ((⟨[⟨0, (0, 0, 0), Ownership.owned⟩], 0⟩ : ClusterTower).generateClusters).numDummyParticles →
        ((((⟨[⟨0, (0, 0, 0), Ownership.owned⟩], 0⟩ : ClusterTower).generateClusters).fillUpWithDummyParticles 5 1).particles.getD
            (((⟨[⟨0, (0, 0, 0), Ownership.owned⟩], 0⟩ : ClusterTower).generateClusters).particles.length - k)
            ClusterTower.dummyPrototype).r
          = (dblMax, dblMax, dblMax)) := by
  intro hclaim
  have h1 := hclaim 1 le_rfl (by decide)
  have h2 : ((((⟨[⟨0, (0, 0, 0), Ownership.owned⟩], 0⟩ : ClusterTower).generateClusters).fillUpWithDummyParticles 5 1).particles.getD
      (((⟨[⟨0, (0, 0, 0), Ownership.owned⟩], 0⟩ : ClusterTower).generateClusters).particles.length - 1)
      ClusterTower.dummyPrototype)
      = { ClusterTower.dummyPrototype with r := (5, 0, (1 : ℚ) * (1 : ℕ)) } :=
    fillDummiesAux_getD_dummy 5 1 _ _ 1 (by decide) le_rfl (by decide)
  rw [h2] at h1
  have h3 : (5 : ℚ) = dblMax := congrArg Prod.fst h1
  rw [dblMax] at h3
  norm_num at h3

/-- C6 (amended): for a configuration whose sample history ends with
`(i1, t1)` and `(i2, t2)` (`i1 < i2` most recent, non-decreasing times,
no 64-bit overflow), `linePrediction` predicts
`t2 + ((t2 - t1) / (i2 - i1)) * (b - i2)` where `/` is TRUNCATED integer
division, not the exact division of a linear extrapolation. -/
theorem linePrediction_trunc_extrapolation (pre : List (ℕ × ℤ))
    (i1 i2 b : ℕ) (t1 t2 : ℤ)
    (h12 : i1 < i2) (h2b : i2 ≤ b) (ht : t1 ≤ t2) (ht1 : 0 ≤ t1)
    (hdiff : t2 - t1 < two64) (hi : ((i2 : ℤ) - i1) < two64)
    (hb : ((b : ℤ) - i2) < two64)
    (hfinal : t2.toNat + (t2 - t1).toNat / (i2 - i1) * (b - i2) < 2 ^ 64) :
    PredictiveTuning.linePrediction (pre ++ [(i1, t1), (i2, t2)]) b
      = t2.toNat + (t2 - t1).toNat / (i2 - i1) * (b - i2) := by
  have hlen : (pre ++ [(i1, t1), (i2, t2)]).length = pre.length + 2 := by
    simp
  have hget1 : (pre ++ [(i1, t1), (i2, t2)]).getD
      ((pre ++ [(i1, t1), (i2, t2)]).length - 1) (0, 0) = (i2, t2) := by
    rw [hlen, List.getD_append_right _ _ _ _ (by omega)]
    have : pre.length + 2 - 1 - pre.length = 1 := by omega
    rw [this]
    rfl
  have hget2 : (pre ++ [(i1, t1), (i2, t2)]).getD
      ((pre ++ [(i1, t1), (i2, t2)]).length - 2) (0, 0) = (i1, t1) := by
    rw [hlen, List.getD_append_right _ _ _ _ (by omega)]
    have : pre.length + 2 - 2 - pre.length = 0 := by omega
    rw [this]
    rfl
  rw [PredictiveTuning.linePrediction]
  rw [hget1, hget2]
  have e1 : (t2 - t1) % two64 = t2 - t1 :=
    Int.emod_eq_of_lt (by omega) hdiff
  have e2 : ((i2 : ℤ) - (i1 : ℤ)) % two64 = (i2 : ℤ) - i1 :=
    Int.emod_eq_of_lt (by omega) hi
  have e3 : ((b : ℤ) - (i2 : ℤ)) % two64 = (b : ℤ) - i2 :=
    Int.emod_eq_of_lt (by omega) hb
  rw [e1, e2, e3]
  have e4 : ((i2 : ℤ) - (i1 : ℤ)).toNat = i2 - i1 := by omega
  have e5 : ((b : ℤ) - (i2 : ℤ)).toNat = b - i2 := by omega
  rw [e4, e5]
  have e6 : t2 + ((t2 - t1).toNat / (i2 - i1) * (b - i2) : ℕ)
      = ((t2.toNat + (t2 - t1).toNat / (i2 - i1) * (b - i2) : ℕ) : ℤ) := by
    omega
  rw [e6, Int.emod_eq_of_lt (by omega) (by rw [two64]; exact_mod_cast hfinal)]
  omega

/-- Witness for the amended C6 at the concrete history `[(0, 0), (2, 4)]` with
tuning-phase begin 4: the prediction is `4 + (4 / 2) * 2 = 8`. -/
theorem linePrediction_trunc_extrapolation_witness :
    PredictiveTuning.linePrediction ([] ++ [((0 : ℕ), (0 : ℤ)), ((2 : ℕ), (4 : ℤ))]) 4
      = (4 : ℤ).toNat + ((4 : ℤ) - 0).toNat / (2 - 0) * (4 - 2) :=
  linePrediction_trunc_extrapolation [] 0 2 4 0 4 (by decide) (by decide)
    (by decide) (by decide) (by decide) (by decide) (by decide) (by decide)

/-- C6 counterexample: for the history ending with samples `(0, 0)` and
`(2, 3)` and tuning-phase begin 4, the code predicts
`3 + ((3 - 0) / (2 - 0)) * (4 - 2) = 5` (truncated integer division), while
the exact linear extrapolation the claim states is `3 + 1.5 * 2 = 6`. -/
theorem linePrediction_counterexample :
    (PredictiveTuning.linePrediction [((0 : ℕ), (0 : ℤ)), ((2 : ℕ), (3 : ℤ))] 4 : ℚ)
      ≠ linePredictionExact 0 0 2 3 4 := by
  have h5 : PredictiveTuning.linePrediction [((0 : ℕ), (0 : ℤ)), ((2 : ℕ), (3 : ℤ))] 4 = 5 := by
    decide
  rw [h5, linePredictionExact]
  norm_num

/-- The two block bounds of consecutive ranks coincide. -/
theorem fullSearchMPI_startNext_eq (n w r : ℕ) :
    FullSearchMPI.startNext n w r = FullSearchMPI.start n w (r + 1) := by
  rw [FullSearchMPI.startNext, FullSearchMPI.start]
  rcases lt_trichotomy r (n % w) with h | h | h
  · rcases eq_or_lt_of_le (Nat.succ_le_of_lt h) with h1 | h1
    · rw [if_pos h, if_neg (by omega)]
      omega
    · rw [if_pos h, if_pos h1]
  · rw [if_neg (by omega), if_neg (by omega)]
  · rw [if_neg (by omega), if_neg (by omega)]

/-- The block start indices are monotone in the rank. -/
theorem fullSearchMPI_start_le_startNext (n w r : ℕ) :
    FullSearchMPI.start n w r ≤ FullSearchMPI.startNext n w r := by
  rw [FullSearchMPI.startNext, FullSearchMPI.start, Nat.mul_succ]
  generalize n / w = B
  generalize n % w = R
  rcases Nat.lt_or_ge r R with h | h
  · rw [if_pos h, if_pos h]
    omega
  · rw [if_neg (by omega), if_neg (by omega)]
    omega

/-- Rank 0's block starts at 0 and the last block ends at `n`. -/
theorem fullSearchMPI_start_zero_and_total (n w : ℕ) (hw : 0 < w) :
    FullSearchMPI.start n w 0 = 0 ∧ FullSearchMPI.start n w w = n := by
  constructor
  · rw [FullSearchMPI.start]
    split <;> omega
  · rw [FullSearchMPI.start, if_neg (by have := Nat.mod_lt n hw; omega)]
    have h2 : n / w * w + n % w = n := Nat.div_add_mod' n w
    omega

/-- Every index below the total is in exactly one rank's block (ladder
uniqueness for a monotone sequence of cut points). -/
theorem ladder_unique (f : ℕ → ℕ) (hmono : ∀ r, f r ≤ f (r + 1)) (w i : ℕ)
    (h0 : f 0 = 0) (hi : i < f w) :
    ∃! r, r < w ∧ f r ≤ i ∧ i < f (r + 1) := by
  have hex : ∀ m, i < f m → ∃ r, r < m ∧ f r ≤ i ∧ i < f (r + 1) := by
    intro m
    induction m with
    | zero => intro h; omega
    | succ k ih =>
      intro h
      by_cases hk : f k ≤ i
      · exact ⟨k, by omega, hk, h⟩
      · obtain ⟨r, hr1, hr2, hr3⟩ := ih (by omega)
        exact ⟨r, by omega, hr2, hr3⟩
  obtain ⟨r, hr1, hr2, hr3⟩ := hex w hi
  have hchain : ∀ a b, a ≤ b → f a ≤ f b := by
    intro a b hab
    induction b with
    | zero =>
      have ha : a = 0 := by omega
      subst ha
      exact le_refl _
    | succ k ih =>
      rcases Nat.lt_or_ge a (k + 1) with h | h
      · exact le_trans (ih (by omega)) (hmono k)
      · have ha : a = k + 1 := by omega
        subst ha
        exact le_refl _
  refine ⟨r, ⟨hr1, hr2, hr3⟩, ?_⟩
  intro s ⟨hs1, hs2, hs3⟩
  by_contra hne
  rcases Nat.lt_or_ge s r with h | h
  · exact absurd (le_trans (hchain (s + 1) r (by omega)) hr2) (by omega)
  · have hsr : r < s := by omega
    exact absurd (le_trans (hchain (r + 1) s (by omega)) hs2) (by omega)

/-- Concatenating consecutive slices of a list gives the prefix up to the last
cut point. -/
theorem bind_slices {α : Type} (l : List α) (f : ℕ → ℕ)
    (hmono : ∀ r, f r ≤ f (r + 1)) (h0 : f 0 = 0) (w : ℕ) :
    (List.range w).flatMap (fun r => (l.take (f (r + 1))).drop (f r))
      = l.take (f w) := by
  induction w with
  | zero => simp [h0]
  | succ m ih =>
    rw [List.range_succ, List.flatMap_append, ih]
    simp only [List.flatMap_cons, List.flatMap_nil, List.append_nil]
    have htt : (l.take (f (m + 1))).take (f m) = l.take (f m) := by
      rw [List.take_take, min_eq_left (hmono m)]
    conv_lhs => rw [← htt]
    exact List.take_append_drop _ _

/-- C7: with `w` MPI ranks and `n` enumerated configurations, the FullSearchMPI
constructor assigns rank `r` the contiguous range starting at
`r * floor(n/w) + min(r, n mod w)`, of size `floor(n/w) + 1` for
`r < n mod w` and `floor(n/w)` otherwise; the blocks of consecutive ranks
abut, every enumeration index below `n` belongs to exactly one rank, and the
concatenation of all ranks' `populateSearchSpace` slices is the full
enumeration. -/
theorem fullSearchMPI_partition (n w : ℕ) (hw : 0 < w) :
    (∀ r, FullSearchMPI.start n w r = n / w * r + min r (n % w)) ∧
    (∀ r, r < n % w →
      FullSearchMPI.startNext n w r - FullSearchMPI.start n w r = n / w + 1) ∧
    (∀ r, n % w ≤ r →
      FullSearchMPI.startNext n w r - FullSearchMPI.start n w r = n / w) ∧
    (∀ r, FullSearchMPI.startNext n w r = FullSearchMPI.start n w (r + 1)) ∧
    FullSearchMPI.start n w 0 = 0 ∧
    FullSearchMPI.start n w w = n ∧
    (∀ i, i < n → ∃! r, r < w ∧ FullSearchMPI.start n w r ≤ i ∧
      i < FullSearchMPI.start n w (r + 1)) ∧
    (∀ configs : List ℕ, configs.length = n →
      (List.range w).flatMap (fun r =>
        FullSearchMPI.populateSearchSpace configs (FullSearchMPI.start n w r)
          (FullSearchMPI.startNext n w r)) = configs) := by
  have hmono : ∀ r, FullSearchMPI.start n w r ≤ FullSearchMPI.start n w (r + 1) := by
    intro r
    rw [← fullSearchMPI_startNext_eq]
    exact fullSearchMPI_start_le_startNext n w r
  have h0 : FullSearchMPI.start n w 0 = 0 :=
    (fullSearchMPI_start_zero_and_total n w hw).1
  have hn : FullSearchMPI.start n w w = n :=
    (fullSearchMPI_start_zero_and_total n w hw).2
  refine ⟨?_, ?_, ?_, fullSearchMPI_startNext_eq n w, h0, hn, ?_, ?_⟩
  · intro r
    rw [FullSearchMPI.start]
    split <;> omega
  · intro r hr
    rw [FullSearchMPI.startNext, FullSearchMPI.start, if_pos hr, if_pos hr,
      Nat.mul_succ]
    generalize n / w = B
    omega
  · intro r hr
    rw [FullSearchMPI.startNext, FullSearchMPI.start, if_neg (by omega),
      if_neg (by omega), Nat.mul_succ]
    generalize n / w = B
    omega
  · intro i hi
    exact ladder_unique _ hmono w i h0 (by omega)
  · intro configs hlen
    have := bind_slices configs (FullSearchMPI.start n w) hmono h0 w
    simp only [FullSearchMPI.populateSearchSpace, fullSearchMPI_startNext_eq]
    rw [this, hn, ← hlen, List.take_length]

/-- Witness for C7 at `n = 7` configurations over `w = 3` ranks: blocks
`[0,3)`, `[3,5)`, `[5,7)`. -/
theorem fullSearchMPI_partition_witness :
    (∀ r, FullSearchMPI.start 7 3 r = 7 / 3 * r + min r (7 % 3)) ∧
    (∀ r, r < 7 % 3 →
      FullSearchMPI.startNext 7 3 r - FullSearchMPI.start 7 3 r = 7 / 3 + 1) ∧
    (∀ r, 7 % 3 ≤ r →
      FullSearchMPI.startNext 7 3 r - FullSearchMPI.start 7 3 r = 7 / 3) ∧
    (∀ r, FullSearchMPI.startNext 7 3 r = FullSearchMPI.start 7 3 (r + 1)) ∧
    FullSearchMPI.start 7 3 0 = 0 ∧
    FullSearchMPI.start 7 3 3 = 7 ∧
    (∀ i, i < 7 → ∃! r, r < 3 ∧ FullSearchMPI.start 7 3 r ≤ i ∧
      i < FullSearchMPI.start 7 3 (r + 1)) ∧
    (∀ configs : List ℕ, configs.length = 7 →
      (List.range 3).flatMap (fun r =>
        FullSearchMPI.populateSearchSpace configs (FullSearchMPI.start 7 3 r)
          (FullSearchMPI.startNext 7 3 r)) = configs) :=
  fullSearchMPI_partition 7 3 (by decide)

/-- The best prediction is attained on the search space and bounds every
prediction from below. -/
theorem predictive_bestPrediction_spec (s : Finset ℕ) (pred : ℕ → ℕ)
    (hs : s.Nonempty) :
    (∃ c ∈ s, pred c = PredictiveTuning.bestPrediction s pred) ∧
    ∀ c ∈ s, PredictiveTuning.bestPrediction s pred ≤ pred c := by
  obtain ⟨b, hb⟩ := Finset.min_of_nonempty (hs.image pred)
  rw [PredictiveTuning.bestPrediction, hb, WithTop.untop'_coe]
  constructor
  · have hmem := Finset.mem_of_min hb
    rw [Finset.mem_image] at hmem
    obtain ⟨c, hc, hcp⟩ := hmem
    exact ⟨c, hc, hcp⟩
  · intro c hc
    have hle := Finset.min_le (Finset.mem_image_of_mem pred hc)
    rw [hb] at hle
    exact_mod_cast hle

/-- The modelled `getOptimum` configuration lies in the search space and
attains the best prediction. -/
theorem predictive_theOptimum_spec (s : Finset ℕ) (pred : ℕ → ℕ)
    (hs : s.Nonempty) :
    PredictiveTuning.theOptimum s pred ∈ s ∧
    pred (PredictiveTuning.theOptimum s pred)
      = PredictiveTuning.bestPrediction s pred := by
  obtain ⟨⟨c, hc, hcp⟩, _⟩ := predictive_bestPrediction_spec s pred hs
  have hfne : (s.filter
      (fun c => pred c = PredictiveTuning.bestPrediction s pred)).Nonempty :=
    ⟨c, Finset.mem_filter.2 ⟨hc, hcp⟩⟩
  obtain ⟨b, hb⟩ := Finset.min_of_nonempty hfne
  have hmem := Finset.mem_of_min hb
  rw [Finset.mem_filter] at hmem
  rw [PredictiveTuning.theOptimum, hb, WithTop.untop'_coe]
  exact hmem

/-- Unfolding lemma for `selectOptimalSearchSpace` past its early return. -/
theorem selectOptimalSearchSpace_eq (space : Finset ℕ) (pred lastTest : ℕ → ℕ)
    (counter : ℕ) (relRange : ℚ) (maxPhases : ℕ)
    (hguard : ¬(space.card = 1 ∨ counter < 2)) :
    PredictiveTuning.selectOptimalSearchSpace space pred lastTest counter
        relRange maxPhases
      = (insert (PredictiveTuning.theOptimum space pred)
          (space.filter (fun c => (pred c : ℚ)
            / (PredictiveTuning.bestPrediction space pred : ℚ) ≤ relRange)),
         space.filter (fun c => ¬ ((pred c : ℚ)
            / (PredictiveTuning.bestPrediction space pred : ℚ) ≤ relRange) ∧
          maxPhases < counter - lastTest c)) := by
  rw [PredictiveTuning.selectOptimalSearchSpace, if_neg hguard]

/-- C5 (amended): at the start of a Predictive tuning phase (at least two
completed phases, more than one configuration, `relativeOptimumRange ≥ 1` and
a positive best prediction), the set of configurations selected for testing
equals the union of (a) the configurations whose prediction divided by the
best prediction is at most `relativeOptimumRange` and (b) the configurations
whose last test lies more than `maxTuningPhasesWithoutTest` phases in the
past; in particular every configuration of (b) is re-tested.  (For
`relativeOptimumRange < 1` the code additionally always tests the
best-predicted configuration, which then need not lie in (a) ∪ (b).) -/
theorem predictiveTuning_candidate_set (space : Finset ℕ)
    (pred lastTest : ℕ → ℕ) (counter : ℕ) (relRange : ℚ) (maxPhases : ℕ)
    (hphases : 2 ≤ counter) (hcard : 2 ≤ space.card) (hrange : 1 ≤ relRange)
    (hbest : 0 < PredictiveTuning.bestPrediction space pred) :
    PredictiveTuning.testedConfigs space pred lastTest counter relRange maxPhases
      = space.filter (fun c => (pred c : ℚ)
          / (PredictiveTuning.bestPrediction space pred : ℚ) ≤ relRange)
        ∪ space.filter (fun c => maxPhases < counter - lastTest c) ∧
    space.filter (fun c => maxPhases < counter - lastTest c)
      ⊆ PredictiveTuning.testedConfigs space pred lastTest counter relRange
          maxPhases := by
  have hne : space.Nonempty := Finset.card_pos.1 (by omega)
  have hopt := predictive_theOptimum_spec space pred hne
  have hguard : ¬(space.card = 1 ∨ counter < 2) := by omega
  have hmain : PredictiveTuning.testedConfigs space pred lastTest counter
      relRange maxPhases
      = space.filter (fun c => (pred c : ℚ)
          / (PredictiveTuning.bestPrediction space pred : ℚ) ≤ relRange)
        ∪ space.filter (fun c => maxPhases < counter - lastTest c) := by
    rw [PredictiveTuning.testedConfigs, if_neg hguard,
      selectOptimalSearchSpace_eq space pred lastTest counter relRange
        maxPhases hguard]
    ext c
    simp only [Finset.mem_union, Finset.mem_insert, Finset.mem_filter]
    constructor
    · rintro ((rfl | ⟨hcs, hA⟩) | ⟨hcs, hA, hB⟩)
      · refine Or.inl ⟨hopt.1, ?_⟩
        rw [hopt.2, div_self (by positivity)]
        exact hrange
      · exact Or.inl ⟨hcs, hA⟩
      · exact Or.inr ⟨hcs, hB⟩
    · rintro (⟨hcs, hA⟩ | ⟨hcs, hB⟩)
      · exact Or.inl (Or.inr ⟨hcs, hA⟩)
      · by_cases hA : (pred c : ℚ)
            / (PredictiveTuning.bestPrediction space pred : ℚ) ≤ relRange
        · exact Or.inl (Or.inr ⟨hcs, hA⟩)
        · exact Or.inr ⟨hcs, hA, hB⟩
  refine ⟨hmain, ?_⟩
  rw [hmain]
  exact Finset.subset_union_right

/-- Witness for the amended C5: two configurations with predictions 10 and 30,
`relativeOptimumRange = 2`, fresh last tests, counter 2, threshold 5. -/
theorem predictiveTuning_candidate_set_witness :
    PredictiveTuning.testedConfigs {0, 1} (fun c => 10 + 20 * c) (fun _ => 0) 2 2 5
      = ({0, 1} : Finset ℕ).filter (fun c => ((10 + 20 * c : ℕ) : ℚ)
          / (PredictiveTuning.bestPrediction {0, 1} (fun c => 10 + 20 * c) : ℚ) ≤ 2)
        ∪ ({0, 1} : Finset ℕ).filter (fun c => 5 < 2 - (fun _ => 0) c) ∧
    ({0, 1} : Finset ℕ).filter (fun c => 5 < 2 - (fun _ => 0) c)
      ⊆ PredictiveTuning.testedConfigs {0, 1} (fun c => 10 + 20 * c) (fun _ => 0) 2 2 5 :=
  predictiveTuning_candidate_set {0, 1} (fun c => 10 + 20 * c) (fun _ => 0) 2 2 5
    (by omega) (by decide) (by norm_num) (by decide)

/-- C5 counterexample: with `relativeOptimumRange = 1/2 < 1`, predictions 10
and 30 and fresh last tests, the code still tests the best-predicted
configuration 0, but the union of (a) and (b) as the claim states it is
empty — the claimed set equality fails. -/
theorem predictiveTuning_candidate_set_counterexample :
    PredictiveTuning.testedConfigs {0, 1} (fun c => 10 + 20 * c) (fun _ => 2) 2 (1 / 2) 5
      ≠ ({0, 1} : Finset ℕ).filter (fun c => ((10 + 20 * c : ℕ) : ℚ)
          / (PredictiveTuning.bestPrediction {0, 1} (fun c => 10 + 20 * c) : ℚ) ≤ 1 / 2)
        ∪ ({0, 1} : Finset ℕ).filter (fun c => 5 < 2 - (fun _ => 2) c) := by
  have hbest : PredictiveTuning.bestPrediction {0, 1} (fun c => 10 + 20 * c) = 10 := by
    decide
  have hopt : PredictiveTuning.theOptimum {0, 1} (fun c => 10 + 20 * c) = 0 := by
    decide
  intro heq
  have h0 : (0 : ℕ) ∈ PredictiveTuning.testedConfigs {0, 1}
      (fun c => 10 + 20 * c) (fun _ => 2) 2 (1 / 2) 5 := by
    rw [PredictiveTuning.testedConfigs, if_neg (by decide),
      selectOptimalSearchSpace_eq _ _ _ _ _ _ (by decide)]
    exact Finset.mem_union_left _ (by simp [Finset.mem_insert, hopt])
  rw [heq] at h0
  simp only [Finset.mem_union, Finset.mem_filter, hbest] at h0
  rcases h0 with ⟨_, h0⟩ | ⟨_, h0⟩
  · norm_num at h0
  · omega

/-- C8 (amended): `DirectSum::addParticle` errors if and only if the position
is outside `[boxMin, boxMax)` and otherwise appends the particle to the owned
cell (leaving everything else unchanged); `addHaloParticle` errors if and only
if the position is inside, and otherwise appends to the halo cell; on the
error branch no state is produced.  The diagnostics name the violated
invariant but NOT the particle id or its position. -/
theorem directSum_add_spec (c : DirectSumC) (p : Particle) :
    ((∃ e, c.addParticle p = Except.error e)
      ↔ inBoxQ p.r c.boxMin c.boxMax = false) ∧
    (inBoxQ p.r c.boxMin c.boxMax = true →
      c.addParticle p = Except.ok { c with ownedCell := c.ownedCell ++ [p] }) ∧
    ((∃ e, c.addHaloParticle p = Except.error e)
      ↔ inBoxQ p.r c.boxMin c.boxMax = true) ∧
    (inBoxQ p.r c.boxMin c.boxMax = false →
      c.addHaloParticle p
        = Except.ok { c with haloCell := c.haloCell ++ [p] }) := by
  by_cases h : inBoxQ p.r c.boxMin c.boxMax
  · simp [DirectSumC.addParticle, DirectSumC.addHaloParticle, h]
  · simp only [Bool.not_eq_true] at h
    simp [DirectSumC.addParticle, DirectSumC.addHaloParticle, h]

/-- Witness for the amended C8: a unit box with one inside and the behaviour
at a concrete outside particle. -/
theorem directSum_add_spec_witness :
    ((∃ e, DirectSumC.addParticle ⟨(0, 0, 0), (1, 1, 1), [], []⟩
        ⟨7, (5, 0, 0), Ownership.owned⟩ = Except.error e)
      ↔ inBoxQ (5, 0, 0) (0, 0, 0) (1, 1, 1) = false) ∧
    (inBoxQ (5, 0, 0) (0, 0, 0) (1, 1, 1) = true →
      DirectSumC.addParticle ⟨(0, 0, 0), (1, 1, 1), [], []⟩
          ⟨7, (5, 0, 0), Ownership.owned⟩
        = Except.ok ⟨(0, 0, 0), (1, 1, 1), [] ++ [⟨7, (5, 0, 0), Ownership.owned⟩], []⟩) ∧
    ((∃ e, DirectSumC.addHaloParticle ⟨(0, 0, 0), (1, 1, 1), [], []⟩
        ⟨7, (5, 0, 0), Ownership.owned⟩ = Except.error e)
      ↔ inBoxQ (5, 0, 0) (0, 0, 0) (1, 1, 1) = true) ∧
    (inBoxQ (5, 0, 0) (0, 0, 0) (1, 1, 1) = false →
      DirectSumC.addHaloParticle ⟨(0, 0, 0), (1, 1, 1), [], []⟩
          ⟨7, (5, 0, 0), Ownership.owned⟩
        = Except.ok ⟨(0, 0, 0), (1, 1, 1), [], [] ++ [⟨7, (5, 0, 0), Ownership.owned⟩]⟩) :=
  directSum_add_spec ⟨(0, 0, 0), (1, 1, 1), [], []⟩ ⟨7, (5, 0, 0), Ownership.owned⟩

/-- C8 counterexample: the diagnostics are constant strings — two particles
with different ids and different positions, both outside the box, produce the
IDENTICAL diagnostic, and the diagnostic contains no digit at all, so it does
not name the particle id or its position. -/
theorem directSum_diagnostic_counterexample :
    DirectSumC.addParticle ⟨(0, 0, 0), (1, 1, 1), [], []⟩
        ⟨1, (5, 0, 0), Ownership.owned⟩
      = Except.error
          "DirectSum: trying to add particle that is not in the bounding box" ∧
    DirectSumC.addParticle ⟨(0, 0, 0), (1, 1, 1), [], []⟩
        ⟨2, (6, 0, 0), Ownership.owned⟩
      = Except.error
          "DirectSum: trying to add particle that is not in the bounding box" ∧
    (1 : ℕ) ≠ 2 ∧
    ((5, 0, 0) : Vec3) ≠ ((6, 0, 0) : Vec3) ∧
    ("DirectSum: trying to add particle that is not in the bounding box").toList.all
      (fun ch => !ch.isDigit) = true := by
  refine ⟨rfl, rfl, by decide, by decide, by decide⟩

/-- Counting an element in a filtered list. -/
theorem count_filter_eq {α : Type} [DecidableEq α] (l : List α) (p : α → Bool)
    (a : α) :
    (l.filter p).count a = if p a = true then l.count a else 0 := by
  by_cases h : p a = true
  · rw [if_pos h, List.count_filter h]
  · rw [if_neg h, List.count_eq_zero]
    intro hmem
    exact h (List.mem_filter.1 hmem).2

/-- Counting an element in a concatenation of per-element lists. -/
theorem count_flatMap {α β : Type} [DecidableEq β] (l : List α)
    (f : α → List β) (b : β) :
    (l.flatMap f).count b = (l.map (fun a => (f a).count b)).sum := by
  induction l with
  | nil => rfl
  | cons a as ih =>
    rw [List.flatMap_cons, List.count_append, List.map_cons, List.sum_cons, ih]

/-- Sums of pointwise-equal maps agree. -/
theorem sum_map_congr {α : Type} (l : List α) (f g : α → ℕ)
    (h : ∀ x ∈ l, f x = g x) : (l.map f).sum = (l.map g).sum := by
  induction l with
  | nil => rfl
  | cons a as ih =>
    rw [List.map_cons, List.map_cons, List.sum_cons, List.sum_cons,
      h a (List.mem_cons_self a as), ih (fun x hx => h x (List.mem_cons_of_mem a hx))]

/-- A sum of maps distributes over pointwise addition. -/
theorem sum_map_add {α : Type} (l : List α) (f g : α → ℕ) :
    (l.map (fun x => f x + g x)).sum = (l.map f).sum + (l.map g).sum := by
  induction l with
  | nil => rfl
  | cons a as ih =>
    simp only [List.map_cons, List.sum_cons, ih]
    omega

/-- `modifyIdx` preserves the length. -/
theorem modifyIdx_length {α : Type} (l : List α) (i : ℕ) (f : α → α) :
    (modifyIdx l i f).length = l.length := by
  induction l generalizing i with
  | nil => rfl
  | cons a as ih =>
    cases i with
    | zero => rfl
    | succ n => simp only [modifyIdx, List.length_cons, ih]

/-- Effect of `modifyIdx` on a sum over the list. -/
theorem sum_map_modifyIdx {α : Type} (l : List α) (i : ℕ) (g : α → α)
    (f : α → ℕ) (d : α) (hi : i < l.length) :
    ((modifyIdx l i g).map f).sum + f (l.getD i d)
      = (l.map f).sum + f (g (l.getD i d)) := by
  induction l generalizing i with
  | nil => simp at hi
  | cons a as ih =>
    cases i with
    | zero =>
      simp only [modifyIdx, List.map_cons, List.sum_cons, List.getD_cons_zero]
      omega
    | succ n =>
      simp only [modifyIdx, List.map_cons, List.sum_cons, List.getD_cons_succ]
      have := ih n (by simpa using hi)
      omega

/-- `addParticle` does not change the geometry fields or the cell count. -/
theorem RLC.addParticle_fields (c : RLC) (q : Particle) :
    (c.addParticle q).boxMin = c.boxMin ∧ (c.addParticle q).boxMax = c.boxMax ∧
    (c.addParticle q).containing = c.containing ∧
    (c.addParticle q).cells.length = c.cells.length :=
  ⟨rfl, rfl, rfl, modifyIdx_length _ _ _⟩

/-- `addParticle` stores exactly one more copy of the added particle. -/
theorem RLC.storedCount_addParticle (c : RLC) (q p : Particle)
    (hv : c.containing q.r < c.cells.length) :
    (c.addParticle q).storedCount p
      = c.storedCount p + if q = p then 1 else 0 := by
  rw [RLC.storedCount, RLC.storedCount, RLC.addParticle]
  have h := sum_map_modifyIdx c.cells (c.containing q.r)
    (fun cell => { cell with ps := cell.ps ++ [q] })
    (fun cell => cell.ps.count p) ⟨(0, 0, 0), (0, 0, 0), false, []⟩ hv
  simp only [List.count_append, List.count_singleton, beq_iff_eq] at h
  simp only []
  omega

/-- Folding `addParticle` over a list stores each element once more. -/
theorem RLC.storedCount_foldl_addParticle (qs : List Particle) (c : RLC)
    (p : Particle) (hv : ∀ q ∈ qs, c.containing q.r < c.cells.length) :
    (qs.foldl RLC.addParticle c).storedCount p
      = c.storedCount p + qs.count p := by
  induction qs generalizing c with
  | nil => simp
  | cons q qs ih =>
    rw [List.foldl_cons]
    have hfields := RLC.addParticle_fields c q
    have hv2 : ∀ x ∈ qs, (c.addParticle q).containing x.r
        < (c.addParticle q).cells.length := by
      intro x hx
      rw [hfields.2.2.1, hfields.2.2.2]
      exact hv x (List.mem_cons_of_mem q hx)
    rw [ih (c.addParticle q) hv2,
      RLC.storedCount_addParticle c q p (hv q (List.mem_cons_self q qs)),
      List.count_cons]
    simp only [beq_iff_eq]
    omega

/-- Per-cell count of the collected leaving particles. -/
theorem RLC.count_collectLeavingCell (c : RLC) (p : Particle) :
    (c.collectLeavingCell).count p
      = (c.cells.map (fun cell =>
          if inBoxQ p.r cell.lo cell.hi = false then cell.ps.count p else 0)).sum := by
  rw [RLC.collectLeavingCell, count_flatMap]
  refine sum_map_congr _ _ _ (fun cell _ => ?_)
  rw [count_filter_eq]
  by_cases h : inBoxQ p.r cell.lo cell.hi
  · rw [if_neg (by simp [h]), if_neg (by simp [h])]
  · simp only [Bool.not_eq_true] at h
    rw [if_pos (by simp [h]), if_pos h]

/-- Per-cell stored count after removing the leaving particles. -/
theorem RLC.storedCount_removeLeavingCell (c : RLC) (p : Particle) :
    (c.removeLeavingCell).storedCount p
      = (c.cells.map (fun cell =>
          if inBoxQ p.r cell.lo cell.hi = true then cell.ps.count p else 0)).sum := by
  rw [RLC.removeLeavingCell, RLC.storedCount]
  simp only [List.map_map]
  refine sum_map_congr _ _ _ (fun cell _ => ?_)
  simp only [Function.comp_apply]
  rw [count_filter_eq]

/-- Per-cell stored count after clearing the halo cells. -/
theorem RLC.storedCount_deleteHaloParticles (c : RLC) (p : Particle) :
    (c.deleteHaloParticles).storedCount p
      = (c.cells.map (fun cell =>
          if cell.isHalo then 0 else cell.ps.count p)).sum := by
  rw [RLC.deleteHaloParticles, RLC.storedCount]
  simp only [List.map_map]
  refine sum_map_congr _ _ _ (fun cell _ => ?_)
  simp only [Function.comp_apply]
  by_cases h : cell.isHalo
  · rw [if_pos h, if_pos h]
    rfl
  · rw [if_neg h, if_neg h]

/-- ReferenceLinkedCells part of C2: a particle stored exactly once is
returned exactly once by `updateContainer` if it is owned and outside
`[boxMin, boxMax)`, and is retained exactly once (and not returned) if it is
inside. -/
theorem rlc_updateContainer_spec (c : RLC) (p : Particle)
    (W1 : ∀ cell ∈ c.cells, cell.isHalo = false →
      ∀ r : Vec3, inBoxQ r cell.lo cell.hi = true →
        inBoxQ r c.boxMin c.boxMax = true)
    (W2 : ∀ cell ∈ c.cells, cell.isHalo = true →
      ∀ q ∈ cell.ps, inBoxQ q.r c.boxMin c.boxMax = false)
    (W4 : ∀ cell ∈ c.cells, cell.isHalo = true →
      ∀ q ∈ cell.ps, q.own ≠ Ownership.owned)
    (W3 : ∀ r : Vec3, inBoxQ r c.boxMin c.boxMax = true →
      c.containing r < c.cells.length)
    (hstored : c.storedCount p = 1) :
    (p.own = Ownership.owned → inBoxQ p.r c.boxMin c.boxMax = false →
      (c.updateContainer).2.count p = 1 ∧
      (c.updateContainer).1.storedCount p = 0) ∧
    (inBoxQ p.r c.boxMin c.boxMax = true →
      (c.updateContainer).2.count p = 0 ∧
      (c.updateContainer).1.storedCount p = 1) := by
  have hclear : ∀ cell : RLCCell,
      (if cell.isHalo then { cell with ps := [] } else cell).lo = cell.lo ∧
      (if cell.isHalo then { cell with ps := [] } else cell).hi = cell.hi := by
    intro cell
    by_cases h : cell.isHalo <;> simp [h]
  -- the collected count A and the kept count K, as sums over the original cells
  have hA : (c.deleteHaloParticles).collectLeavingCell.count p
      = (c.cells.map (fun cell => if cell.isHalo then 0 else
          if inBoxQ p.r cell.lo cell.hi = false then cell.ps.count p else 0)).sum := by
    rw [RLC.count_collectLeavingCell, RLC.deleteHaloParticles]
    simp only [List.map_map]
    refine sum_map_congr _ _ _ (fun cell _ => ?_)
    simp only [Function.comp_apply]
    by_cases h : cell.isHalo
    · simp [h]
    · simp [h]
  have hK : (c.deleteHaloParticles).removeLeavingCell.storedCount p
      = (c.cells.map (fun cell => if cell.isHalo then 0 else
          if inBoxQ p.r cell.lo cell.hi = true then cell.ps.count p else 0)).sum := by
    rw [RLC.storedCount_removeLeavingCell, RLC.deleteHaloParticles]
    simp only [List.map_map]
    refine sum_map_congr _ _ _ (fun cell _ => ?_)
    simp only [Function.comp_apply]
    by_cases h : cell.isHalo
    · simp [h]
    · simp [h]
  -- K + A equals the stored count after halo deletion
  have hKA : (c.deleteHaloParticles).removeLeavingCell.storedCount p
      + (c.deleteHaloParticles).collectLeavingCell.count p
      = (c.cells.map (fun cell => if cell.isHalo then 0 else
          cell.ps.count p)).sum := by
    rw [hA, hK, ← sum_map_add]
    refine sum_map_congr _ _ _ (fun cell _ => ?_)
    by_cases h : cell.isHalo
    · simp [h]
    · by_cases h2 : inBoxQ p.r cell.lo cell.hi <;> simp [h, h2]
  -- the updateContainer components
  have hsnd : (c.updateContainer).2
      = (c.deleteHaloParticles).collectLeavingCell.filter
          (fun q => !(inBoxQ q.r c.boxMin c.boxMax)) := rfl
  have hfst : (c.updateContainer).1
      = ((c.deleteHaloParticles).collectLeavingCell.filter
          (fun q => inBoxQ q.r c.boxMin c.boxMax)).foldl RLC.addParticle
          (c.deleteHaloParticles).removeLeavingCell := rfl
  have hfold : (c.updateContainer).1.storedCount p
      = (c.deleteHaloParticles).removeLeavingCell.storedCount p
        + ((c.deleteHaloParticles).collectLeavingCell.filter
            (fun q => inBoxQ q.r c.boxMin c.boxMax)).count p := by
    rw [hfst]
    refine RLC.storedCount_foldl_addParticle _ _ p (fun q hq => ?_)
    have hq2 := (List.mem_filter.1 hq).2
    have hlen : (c.deleteHaloParticles).removeLeavingCell.cells.length
        = c.cells.length := by
      simp [RLC.removeLeavingCell, RLC.deleteHaloParticles]
    have hcont : (c.deleteHaloParticles).removeLeavingCell.containing
        = c.containing := rfl
    rw [hcont, hlen]
    exact W3 q.r hq2
  constructor
  · intro hown hout
    -- halo cells never hold the owned particle p
    have hhalo0 : ∀ cell ∈ c.cells, cell.isHalo = true → cell.ps.count p = 0 := by
      intro cell hc hh
      by_contra hne
      exact W4 cell hc hh p (List.count_pos_iff.1 (Nat.pos_of_ne_zero hne)) hown
    have hsum1 : (c.cells.map (fun cell => if cell.isHalo then 0 else
        cell.ps.count p)).sum = 1 := by
      rw [← hstored, RLC.storedCount]
      refine sum_map_congr _ _ _ (fun cell hc => ?_)
      by_cases h : cell.isHalo
      · rw [if_pos h, hhalo0 cell hc h]
      · rw [if_neg h]
    have hA1 : (c.deleteHaloParticles).collectLeavingCell.count p = 1 := by
      rw [hA, ← hsum1]
      refine sum_map_congr _ _ _ (fun cell hc => ?_)
      by_cases h : cell.isHalo
      · simp [h]
      · rw [if_neg h, if_neg h]
        have hnotin : inBoxQ p.r cell.lo cell.hi = false := by
          by_contra h2
          simp only [Bool.not_eq_false] at h2
          rw [W1 cell hc (by simp [h]) p.r h2] at hout
          simp at hout
        rw [if_pos hnotin]
    constructor
    · rw [hsnd, count_filter_eq, if_pos (by rw [hout]; rfl), hA1]
    · have hK0 : (c.deleteHaloParticles).removeLeavingCell.storedCount p = 0 := by
        omega
      have htr : ((c.deleteHaloParticles).collectLeavingCell.filter
          (fun q => inBoxQ q.r c.boxMin c.boxMax)).count p = 0 := by
        rw [count_filter_eq, if_neg (by rw [hout]; exact Bool.false_ne_true)]
      rw [hfold, hK0, htr]
  · intro hin
    have hhalo0 : ∀ cell ∈ c.cells, cell.isHalo = true → cell.ps.count p = 0 := by
      intro cell hc hh
      by_contra hne
      have hmem := List.count_pos_iff.1 (Nat.pos_of_ne_zero hne)
      rw [W2 cell hc hh p hmem] at hin
      exact Bool.false_ne_true hin
    have hsum1 : (c.cells.map (fun cell => if cell.isHalo then 0 else
        cell.ps.count p)).sum = 1 := by
      rw [← hstored, RLC.storedCount]
      refine sum_map_congr _ _ _ (fun cell hc => ?_)
      by_cases h : cell.isHalo
      · rw [if_pos h, hhalo0 cell hc h]
      · rw [if_neg h]
    constructor
    · rw [hsnd, count_filter_eq, if_neg (by rw [hin]; exact Bool.false_ne_true)]
    · have htr : ((c.deleteHaloParticles).collectLeavingCell.filter
          (fun q => inBoxQ q.r c.boxMin c.boxMax)).count p
          = (c.deleteHaloParticles).collectLeavingCell.count p := by
        rw [count_filter_eq, if_pos hin]
      rw [hfold, htr]
      omega

/-- Counting through a map that fixes exactly the occurrences of `p`. -/
theorem count_map_eq {α : Type} [DecidableEq α] (l : List α) (f : α → α)
    (p : α) (h : ∀ q, f q = p ↔ q = p) : (l.map f).count p = l.count p := by
  induction l with
  | nil => rfl
  | cons a as ih =>
    rw [List.map_cons, List.count_cons, List.count_cons, ih]
    simp only [beq_iff_eq, h a]

/-- Counting through a map that never produces `p`. -/
theorem count_map_zero {α : Type} [DecidableEq α] (l : List α) (f : α → α)
    (p : α) (h : ∀ q, f q ≠ p) : (l.map f).count p = 0 := by
  induction l with
  | nil => rfl
  | cons a as ih =>
    rw [List.map_cons, List.count_cons, ih]
    simp [h a]

/-- VerletClusterLists part of C2: a particle stored exactly once is returned
exactly once by `updateContainer` if it is owned and outside
`[boxMin, boxMax)` (and is deleted), and is retained exactly once (and not
returned) if it is inside. -/
theorem vcl_updateContainer_spec (c : VCL) (p : Particle)
    (hown : p.own = Ownership.owned) (hstored : c.storedCount p = 1) :
    (inBoxQ p.r c.boxMin c.boxMax = false →
      (c.updateContainer).2.count p = 1 ∧
      (c.updateContainer).1.storedCount p = 0) ∧
    (inBoxQ p.r c.boxMin c.boxMax = true →
      (c.updateContainer).2.count p = 0 ∧
      (c.updateContainer).1.storedCount p = 1) := by
  have hpnd : p.own ≠ Ownership.dummyTag := by rw [hown]; exact fun h => by cases h
  have hf1 : ∀ q : Particle,
      (if q.own = Ownership.dummyTag then q
        else if q.own = Ownership.owned then q else markDummy q) = p ↔ q = p := by
    intro q
    constructor
    · intro h
      by_cases h1 : q.own = Ownership.dummyTag
      · rwa [if_pos h1] at h
      · by_cases h2 : q.own = Ownership.owned
        · rwa [if_neg h1, if_pos h2] at h
        · rw [if_neg h1, if_neg h2] at h
          exfalso
          apply hpnd
          rw [← h]
          rfl
    · intro h
      subst h
      rw [if_neg hpnd, if_pos hown]
  -- the stored count is insensitive to the halo deletion
  have hc1count : ∀ tw : List Particle,
      (((tw.map (fun q => if q.own = Ownership.dummyTag then q
          else if q.own = Ownership.owned then q else markDummy q)).filter
        (fun q => !(decide (q.own = Ownership.dummyTag)))).count p)
      = tw.count p := by
    intro tw
    rw [count_filter_eq, if_pos (by simp [hpnd]), count_map_eq _ _ _ hf1]
  have hccount : ∀ tw : List Particle,
      ((tw.filter (fun q => !(decide (q.own = Ownership.dummyTag)))).count p)
      = tw.count p := by
    intro tw
    rw [count_filter_eq, if_pos (by simp [hpnd])]
  have hsum : (c.towers.map (fun tw => tw.count p)).sum = 1 := by
    rw [← hstored, VCL.storedCount]
    exact sum_map_congr _ _ _ (fun tw _ => (hccount tw).symm)
  have hsnd : (c.updateContainer).2.count p
      = (c.towers.map (fun tw =>
          if (!(decide (p.own = Ownership.dummyTag))
              && !(inBoxQ p.r c.boxMin c.boxMax)) = true
          then (tw.map (fun q => if q.own = Ownership.dummyTag then q
            else if q.own = Ownership.owned then q else markDummy q)).count p
          else 0)).sum := by
    show ((c.deleteHaloParticles).towers.flatMap _).count p = _
    rw [count_flatMap, VCL.deleteHaloParticles]
    simp only [List.map_map]
    refine sum_map_congr _ _ _ (fun tw _ => ?_)
    simp only [Function.comp_apply]
    rw [count_filter_eq]
  constructor
  · intro hout
    constructor
    · rw [hsnd, ← hsum]
      refine sum_map_congr _ _ _ (fun tw _ => ?_)
      rw [if_pos (by simp [hpnd, hout]), count_map_eq _ _ _ hf1]
    · -- after the update, every occurrence of p has been marked dummy
      have hfst : (c.updateContainer).1.storedCount p
          = (((c.deleteHaloParticles).towers.map (fun tw => tw.map (fun q =>
              if q.own ≠ Ownership.dummyTag ∧ inBoxQ q.r c.boxMin c.boxMax = false
                then markDummy q else q))).map
              (fun tw => (tw.filter
                (fun q => !(decide (q.own = Ownership.dummyTag)))).count p)).sum := rfl
      rw [hfst, VCL.deleteHaloParticles]
      simp only [List.map_map]
      refine List.sum_eq_zero (fun x hx => ?_)
      simp only [List.mem_map, Function.comp_apply] at hx
      obtain ⟨tw, _, rfl⟩ := hx
      rw [count_filter_eq, if_pos (by simp [hpnd]), count_map_zero]
      intro q hq
      by_cases h1 : q.own ≠ Ownership.dummyTag ∧ inBoxQ q.r c.boxMin c.boxMax = false
      · rw [if_pos h1] at hq
        apply hpnd
        rw [← hq]
        rfl
      · rw [if_neg h1] at hq
        subst hq
        exact h1 ⟨hpnd, hout⟩
  · intro hin
    constructor
    · rw [hsnd]
      refine List.sum_eq_zero (fun x hx => ?_)
      simp only [List.mem_map] at hx
      obtain ⟨tw, _, rfl⟩ := hx
      rw [if_neg (by simp [hin])]
    ·
      have hfst : (c.updateContainer).1.storedCount p
          = (((c.deleteHaloParticles).towers.map (fun tw => tw.map (fun q =>
              if q.own ≠ Ownership.dummyTag ∧ inBoxQ q.r c.boxMin c.boxMax = false
                then markDummy q else q))).map
              (fun tw => (tw.filter
                (fun q => !(decide (q.own = Ownership.dummyTag)))).count p)).sum := rfl
      rw [hfst, VCL.deleteHaloParticles]
      simp only [List.map_map]
      rw [← hsum]
      refine sum_map_congr _ _ _ (fun tw _ => ?_)
      simp only [Function.comp_apply]
      rw [count_filter_eq, if_pos (by simp [hpnd]), count_map_eq, count_map_eq _ _ _ hf1]
      intro q
      constructor
      · intro hq
        by_cases h1 : q.own ≠ Ownership.dummyTag ∧ inBoxQ q.r c.boxMin c.boxMax = false
        · rw [if_pos h1] at hq
          exfalso
          apply hpnd
          rw [← hq]
          rfl
        · rwa [if_neg h1] at hq
      · intro hq
        subst hq
        rw [if_neg (fun h => by rw [hin] at h; exact absurd h.2 (by decide))]

/-- C2: for every well-formed container state (owned cell boxes inside the
domain, halo cells holding only non-owned particles outside the domain, the
cell lookup total on the domain), `updateContainer()` returns every owned
particle whose position is outside `[boxMin, boxMax)` exactly once and
afterwards stores every particle whose position is inside `[boxMin, boxMax)`
exactly once (neither lost, duplicated, nor returned) — for the
reference-based LinkedCells container and for the VerletClusterLists
container. -/
theorem updateContainer_outside_returned_inside_retained :
    (∀ (c : RLC) (p : Particle),
      (∀ cell ∈ c.cells, cell.isHalo = false →
        ∀ r : Vec3, inBoxQ r cell.lo cell.hi = true →
          inBoxQ r c.boxMin c.boxMax = true) →
      (∀ cell ∈ c.cells, cell.isHalo = true →
        ∀ q ∈ cell.ps, inBoxQ q.r c.boxMin c.boxMax = false) →
      (∀ cell ∈ c.cells, cell.isHalo = true →
        ∀ q ∈ cell.ps, q.own ≠ Ownership.owned) →
      (∀ r : Vec3, inBoxQ r c.boxMin c.boxMax = true →
        c.containing r < c.cells.length) →
      c.storedCount p = 1 →
      ((p.own = Ownership.owned → inBoxQ p.r c.boxMin c.boxMax = false →
        (c.updateContainer).2.count p = 1 ∧
        (c.updateContainer).1.storedCount p = 0) ∧
       (inBoxQ p.r c.boxMin c.boxMax = true →
        (c.updateContainer).2.count p = 0 ∧
        (c.updateContainer).1.storedCount p = 1))) ∧
    (∀ (c : VCL) (p : Particle),
      p.own = Ownership.owned → c.storedCount p = 1 →
      ((inBoxQ p.r c.boxMin c.boxMax = false →
        (c.updateContainer).2.count p = 1 ∧
        (c.updateContainer).1.storedCount p = 0) ∧
       (inBoxQ p.r c.boxMin c.boxMax = true →
        (c.updateContainer).2.count p = 0 ∧
        (c.updateContainer).1.storedCount p = 1))) :=
  ⟨fun c p W1 W2 W4 W3 h => rlc_updateContainer_spec c p W1 W2 W4 W3 h,
   fun c p hown h => vcl_updateContainer_spec c p hown h⟩

/-- Witness for C2: a one-cell reference linked-cells container holding a
drifted-out owned particle, and a one-tower cluster container holding an
inside owned particle. -/
theorem updateContainer_outside_returned_inside_retained_witness :
    (((⟨1, (5, 0, 0), Ownership.owned⟩ : Particle).own = Ownership.owned →
      inBoxQ (5, 0, 0) (0, 0, 0) (1, 1, 1) = false →
      ((⟨(0, 0, 0), (1, 1, 1),
          [⟨(0, 0, 0), (1, 1, 1), false, [⟨1, (5, 0, 0), Ownership.owned⟩]⟩],
          fun _ => 0⟩ : RLC).updateContainer).2.count
          ⟨1, (5, 0, 0), Ownership.owned⟩ = 1 ∧
      ((⟨(0, 0, 0), (1, 1, 1),
          [⟨(0, 0, 0), (1, 1, 1), false, [⟨1, (5, 0, 0), Ownership.owned⟩]⟩],
          fun _ => 0⟩ : RLC).updateContainer).1.storedCount
          ⟨1, (5, 0, 0), Ownership.owned⟩ = 0) ∧
     (inBoxQ (5, 0, 0) (0, 0, 0) (1, 1, 1) = true →
      ((⟨(0, 0, 0), (1, 1, 1),
          [⟨(0, 0, 0), (1, 1, 1), false, [⟨1, (5, 0, 0), Ownership.owned⟩]⟩],
          fun _ => 0⟩ : RLC).updateContainer).2.count
          ⟨1, (5, 0, 0), Ownership.owned⟩ = 0 ∧
      ((⟨(0, 0, 0), (1, 1, 1),
          [⟨(0, 0, 0), (1, 1, 1), false, [⟨1, (5, 0, 0), Ownership.owned⟩]⟩],
          fun _ => 0⟩ : RLC).updateContainer).1.storedCount
          ⟨1, (5, 0, 0), Ownership.owned⟩ = 1)) ∧
    ((inBoxQ (1, 1, 1) (0, 0, 0) (2, 2, 2) = false →
      ((⟨(0, 0, 0), (2, 2, 2),
          [[⟨2, (1, 1, 1), Ownership.owned⟩]]⟩ : VCL).updateContainer).2.count
          ⟨2, (1, 1, 1), Ownership.owned⟩ = 1 ∧
      ((⟨(0, 0, 0), (2, 2, 2),
          [[⟨2, (1, 1, 1), Ownership.owned⟩]]⟩ : VCL).updateContainer).1.storedCount
          ⟨2, (1, 1, 1), Ownership.owned⟩ = 0) ∧
     (inBoxQ (1, 1, 1) (0, 0, 0) (2, 2, 2) = true →
      ((⟨(0, 0, 0), (2, 2, 2),
          [[⟨2, (1, 1, 1), Ownership.owned⟩]]⟩ : VCL).updateContainer).2.count
          ⟨2, (1, 1, 1), Ownership.owned⟩ = 0 ∧
      ((⟨(0, 0, 0), (2, 2, 2),
          [[⟨2, (1, 1, 1), Ownership.owned⟩]]⟩ : VCL).updateContainer).1.storedCount
          ⟨2, (1, 1, 1), Ownership.owned⟩ = 1)) :=
  ⟨updateContainer_outside_returned_inside_retained.1
      ⟨(0, 0, 0), (1, 1, 1),
        [⟨(0, 0, 0), (1, 1, 1), false, [⟨1, (5, 0, 0), Ownership.owned⟩]⟩],
        fun _ => 0⟩
      ⟨1, (5, 0, 0), Ownership.owned⟩
      (by
        intro cell hc hh r hr
        simp only [List.mem_singleton] at hc
        subst hc
        exact hr)
      (by
        intro cell hc hh q hq
        simp only [List.mem_singleton] at hc
        subst hc
        simp at hh)
      (by
        intro cell hc hh q hq
        simp only [List.mem_singleton] at hc
        subst hc
        simp at hh)
      (by intro r hr; exact Nat.one_pos)
      (by decide),
   updateContainer_outside_returned_inside_retained.2
      ⟨(0, 0, 0), (2, 2, 2), [[⟨2, (1, 1, 1), Ownership.owned⟩]]⟩
      ⟨2, (1, 1, 1), Ownership.owned⟩
      rfl
      (by decide)⟩

/-- The flat pair offsets of `computeOffsets` are the flattened coordinate
offsets. -/
theorem cellPairOffsets_eq_map (dims : ℕ × ℕ × ℕ) :
    cellPairOffsets dims = coordOffsets.map
      (fun pq => (flatIndex dims pq.1, flatIndex dims pq.2)) := rfl

/-- Every unordered pair of distinct 0/1-offsets with componentwise minimum 0
appears among the 14 coordinate offsets. -/
theorem coordOffsets_match_exists (u1 u2 u3 v1 v2 v3 : ℕ)
    (hu1 : u1 ≤ 1) (hu2 : u2 ≤ 1) (hu3 : u3 ≤ 1)
    (hv1 : v1 ≤ 1) (hv2 : v2 ≤ 1) (hv3 : v3 ≤ 1)
    (hne : ((u1, u2, u3) : ℕ × ℕ × ℕ) ≠ (v1, v2, v3))
    (hm1 : min u1 v1 = 0) (hm2 : min u2 v2 = 0) (hm3 : min u3 v3 = 0) :
    ∃ k : Fin 14, matchesAt k (u1, u2, u3) (v1, v2, v3) := by
  interval_cases u1 <;> interval_cases u2 <;> interval_cases u3 <;>
    interval_cases v1 <;> interval_cases v2 <;> interval_cases v3 <;>
    revert hne hm1 hm2 hm3 <;> decide

/-- No unordered pair of 0/1-offsets appears at two different entries. -/
theorem coordOffsets_match_unique (u1 u2 u3 v1 v2 v3 : ℕ)
    (hu1 : u1 ≤ 1) (hu2 : u2 ≤ 1) (hu3 : u3 ≤ 1)
    (hv1 : v1 ≤ 1) (hv2 : v2 ≤ 1) (hv3 : v3 ≤ 1) :
    ∀ k k2 : Fin 14, matchesAt k (u1, u2, u3) (v1, v2, v3) →
      matchesAt k2 (u1, u2, u3) (v1, v2, v3) → k = k2 := by
  interval_cases u1 <;> interval_cases u2 <;> interval_cases u3 <;>
    interval_cases v1 <;> interval_cases v2 <;> interval_cases v3 <;> decide

/-- The entries 1..13 of the coordinate offsets are distinct 0/1-pairs with
componentwise minimum 0. -/
theorem coordOffsets_props : ∀ k : ℕ, k < 14 → 1 ≤ k →
    (coordOffsets.getD k ((0, 0, 0), (0, 0, 0))).1
      ≠ (coordOffsets.getD k ((0, 0, 0), (0, 0, 0))).2 ∧
    (coordOffsets.getD k ((0, 0, 0), (0, 0, 0))).1.1 ≤ 1 ∧
    (coordOffsets.getD k ((0, 0, 0), (0, 0, 0))).1.2.1 ≤ 1 ∧
    (coordOffsets.getD k ((0, 0, 0), (0, 0, 0))).1.2.2 ≤ 1 ∧
    (coordOffsets.getD k ((0, 0, 0), (0, 0, 0))).2.1 ≤ 1 ∧
    (coordOffsets.getD k ((0, 0, 0), (0, 0, 0))).2.2.1 ≤ 1 ∧
    (coordOffsets.getD k ((0, 0, 0), (0, 0, 0))).2.2.2 ≤ 1 ∧
    min (coordOffsets.getD k ((0, 0, 0), (0, 0, 0))).1.1
      (coordOffsets.getD k ((0, 0, 0), (0, 0, 0))).2.1 = 0 ∧
    min (coordOffsets.getD k ((0, 0, 0), (0, 0, 0))).1.2.1
      (coordOffsets.getD k ((0, 0, 0), (0, 0, 0))).2.2.1 = 0 ∧
    min (coordOffsets.getD k ((0, 0, 0), (0, 0, 0))).1.2.2
      (coordOffsets.getD k ((0, 0, 0), (0, 0, 0))).2.2.2 = 0 := by
  intro k hk hk1
  interval_cases k <;> decide

/-- The `k`-th task of `processBaseCell`, expressed through the coordinate
offsets. -/
theorem taskAt_eq (dims : ℕ × ℕ × ℕ) (bi k : ℕ) (hk : k < 14) :
    taskAt dims bi k =
      if bi + flatIndex dims (coordOffsets.getD k ((0, 0, 0), (0, 0, 0))).1
          = bi + flatIndex dims (coordOffsets.getD k ((0, 0, 0), (0, 0, 0))).2
        then C08Task.self
          (bi + flatIndex dims (coordOffsets.getD k ((0, 0, 0), (0, 0, 0))).1)
        else C08Task.pairT
          (bi + flatIndex dims (coordOffsets.getD k ((0, 0, 0), (0, 0, 0))).1)
          (bi + flatIndex dims (coordOffsets.getD k ((0, 0, 0), (0, 0, 0))).2) := by
  interval_cases k <;> rfl

/-- `threeToOneD` is linear: flattening commutes with coordinate addition. -/
theorem flatIndex_cadd (dims a u : ℕ × ℕ × ℕ) :
    flatIndex dims (cadd a u) = flatIndex dims a + flatIndex dims u := by
  unfold flatIndex cadd threeToOneD
  ring

/-- Unique decomposition of `x + n * A` with `x < n`. -/
theorem addMul_decomp (n x1 x2 A B : ℕ) (h1 : x1 < n) (h2 : x2 < n)
    (h : x1 + n * A = x2 + n * B) : x1 = x2 ∧ A = B := by
  have e1 : (x1 + n * A) % n = x1 := by
    rw [Nat.add_mul_mod_self_left, Nat.mod_eq_of_lt h1]
  have e2 : (x2 + n * B) % n = x2 := by
    rw [Nat.add_mul_mod_self_left, Nat.mod_eq_of_lt h2]
  have hx : x1 = x2 := by rw [← e1, h, e2]
  refine ⟨hx, ?_⟩
  subst hx
  have hAB : n * A = n * B := by omega
  exact Nat.eq_of_mul_eq_mul_left (by omega) hAB

/-- `threeToOneD` is injective on the grid. -/
theorem flatIndex_inj (dims a b : ℕ × ℕ × ℕ) (ha : inGrid dims a)
    (hb : inGrid dims b) (h : flatIndex dims a = flatIndex dims b) :
    a = b := by
  obtain ⟨a1, a2, a3⟩ := a
  obtain ⟨b1, b2, b3⟩ := b
  obtain ⟨ha1, ha2, ha3⟩ := ha
  obtain ⟨hb1, hb2, hb3⟩ := hb
  unfold flatIndex threeToOneD at h
  simp only at h ha1 ha2 ha3 hb1 hb2 hb3
  obtain ⟨e1, h2⟩ := addMul_decomp dims.1 a1 b1 _ _ ha1 hb1 h
  obtain ⟨e2, e3⟩ := addMul_decomp dims.2.1 a2 b2 _ _ ha2 hb2 h2
  simp [e1, e2, e3]

/-- A base-range cell shifted by a 0/1-offset stays in the grid. -/
theorem cadd_inGrid (dims b u : ℕ × ℕ × ℕ) (hb : inBaseRange dims b)
    (hu1 : u.1 ≤ 1) (hu2 : u.2.1 ≤ 1) (hu3 : u.2.2 ≤ 1) :
    inGrid dims (cadd b u) := by
  obtain ⟨h1, h2, h3⟩ := hb
  exact ⟨by simp only [cadd]; omega, by simp only [cadd]; omega,
    by simp only [cadd]; omega⟩

/-- Task 0 is the self-cell task of the base cell. -/
theorem taskAt_zero (dims : ℕ × ℕ × ℕ) (bi : ℕ) :
    taskAt dims bi 0 = C08Task.self bi := by
  rw [taskAt_eq dims bi 0 (by omega)]
  have hget : coordOffsets.getD 0 ((0, 0, 0), (0, 0, 0))
      = ((0, 0, 0), (0, 0, 0)) := rfl
  rw [hget, if_pos rfl]
  simp [flatIndex, threeToOneD]

/-- Tasks 1..13 are genuine cell-pair tasks of the forward 2x2x2 block. -/
theorem taskAt_pair_eq (dims b : ℕ × ℕ × ℕ) (hb : inBaseRange dims b) (k : ℕ)
    (hk1 : 1 ≤ k) (hk : k < 14) :
    taskAt dims (flatIndex dims b) k
      = C08Task.pairT
          (flatIndex dims (cadd b (coordOffsets.getD k ((0, 0, 0), (0, 0, 0))).1))
          (flatIndex dims (cadd b (coordOffsets.getD k ((0, 0, 0), (0, 0, 0))).2)) := by
  obtain ⟨hne, hu1, hu2, hu3, hv1, hv2, hv3, _, _, _⟩ :=
    coordOffsets_props k hk hk1
  rw [taskAt_eq dims _ k hk, ← flatIndex_cadd, ← flatIndex_cadd]
  rw [if_neg ?_]
  intro heq
  have hg1 := cadd_inGrid dims b _ hb hu1 hu2 hu3
  have hg2 := cadd_inGrid dims b _ hb hv1 hv2 hv3
  have hcc := flatIndex_inj dims _ _ hg1 hg2 heq
  apply hne
  obtain ⟨b1, b2, b3⟩ := b
  simp only [cadd, Prod.mk.injEq] at hcc
  obtain ⟨c1, c2, c3⟩ := hcc
  have p1 := Nat.add_left_cancel c1
  have p2 := Nat.add_left_cancel c2
  have p3 := Nat.add_left_cancel c3
  exact Prod.ext p1 (Prod.ext p2 p3)

/-- A base-range cell is in the grid. -/
theorem baseRange_inGrid (dims b : ℕ × ℕ × ℕ) (hb : inBaseRange dims b) :
    inGrid dims b := by
  obtain ⟨h1, h2, h3⟩ := hb
  exact ⟨by omega, by omega, by omega⟩

/-- C1 (amended): `processBaseCell` schedules exactly 14 ordered tasks — the
self task of the base cell and 13 cell-pair tasks within the forward 2x2x2
block — and applying it at every base cell of the traversed range (all cells
whose coordinates are below `dims - 1`) schedules every unordered pair of
3x3x3-adjacent grid cells WHOSE COMPONENTWISE MINIMUM LIES IN THE TRAVERSED
RANGE exactly once, and the self task of every base cell of the range exactly
once.  (Pairs and self tasks inside the far boundary layer are not
scheduled.) -/
theorem c08_base_step_correct (dims : ℕ × ℕ × ℕ)
    (h2x : 2 ≤ dims.1) (h2y : 2 ≤ dims.2.1) (h2z : 2 ≤ dims.2.2) :
    (∀ b : ℕ × ℕ × ℕ, inBaseRange dims b →
      (processBaseCell dims (flatIndex dims b)).length = 14 ∧
      taskAt dims (flatIndex dims b) 0 = C08Task.self (flatIndex dims b) ∧
      (∀ k, 1 ≤ k → k < 14 → ∃ u v : ℕ × ℕ × ℕ,
        u.1 ≤ 1 ∧ u.2.1 ≤ 1 ∧ u.2.2 ≤ 1 ∧ v.1 ≤ 1 ∧ v.2.1 ≤ 1 ∧ v.2.2 ≤ 1 ∧
        u ≠ v ∧ taskAt dims (flatIndex dims b) k
          = C08Task.pairT (flatIndex dims (cadd b u))
              (flatIndex dims (cadd b v)))) ∧
    (∀ A B : ℕ × ℕ × ℕ, inGrid dims A → inGrid dims B → adjacent3 A B →
      A ≠ B → inBaseRange dims (cmin A B) →
      ∃! bk : (ℕ × ℕ × ℕ) × ℕ, inBaseRange dims bk.1 ∧ bk.2 < 14 ∧
        schedulesPair (taskAt dims (flatIndex dims bk.1) bk.2)
          (flatIndex dims A) (flatIndex dims B)) ∧
    (∀ Cc : ℕ × ℕ × ℕ, inBaseRange dims Cc →
      ∃! bk : (ℕ × ℕ × ℕ) × ℕ, inBaseRange dims bk.1 ∧ bk.2 < 14 ∧
        taskAt dims (flatIndex dims bk.1) bk.2
          = C08Task.self (flatIndex dims Cc)) := by
  refine ⟨?_, ?_, ?_⟩
  · -- shape of one base step
    intro b hb
    refine ⟨rfl, taskAt_zero dims (flatIndex dims b), ?_⟩
    intro k hk1 hk
    obtain ⟨hne, hu1, hu2, hu3, hv1, hv2, hv3, _, _, _⟩ :=
      coordOffsets_props k hk hk1
    exact ⟨(coordOffsets.getD k ((0, 0, 0), (0, 0, 0))).1,
      (coordOffsets.getD k ((0, 0, 0), (0, 0, 0))).2,
      hu1, hu2, hu3, hv1, hv2, hv3, hne, taskAt_pair_eq dims b hb k hk1 hk⟩
  · -- pair coverage
    intro A B hA hB hadj hAB hmin
    obtain ⟨A1, A2, A3⟩ := A
    obtain ⟨B1, B2, B3⟩ := B
    obtain ⟨hA1, hA2, hA3⟩ := hA
    obtain ⟨hB1, hB2, hB3⟩ := hB
    obtain ⟨⟨had1, had1'⟩, ⟨had2, had2'⟩, ⟨had3, had3'⟩⟩ := hadj
    have hA1' : A1 < dims.1 := hA1
    have hA2' : A2 < dims.2.1 := hA2
    have hA3' : A3 < dims.2.2 := hA3
    have hB1' : B1 < dims.1 := hB1
    have hB2' : B2 < dims.2.1 := hB2
    have hB3' : B3 < dims.2.2 := hB3
    have hd1 : A1 ≤ B1 + 1 := had1
    have hd1' : B1 ≤ A1 + 1 := had1'
    have hd2 : A2 ≤ B2 + 1 := had2
    have hd2' : B2 ≤ A2 + 1 := had2'
    have hd3 : A3 ≤ B3 + 1 := had3
    have hd3' : B3 ≤ A3 + 1 := had3'
    clear hA1 hA2 hA3 hB1 hB2 hB3 had1 had1' had2 had2' had3 had3'
    simp only [cmin] at hmin
    have hABc : ¬(A1 = B1 ∧ A2 = B2 ∧ A3 = B3) := by
      intro ⟨e1, e2, e3⟩
      exact hAB (by rw [e1, e2, e3])
    -- the forced base cell and the two offsets
    have hneuv : ((A1 - min A1 B1, A2 - min A2 B2, A3 - min A3 B3) : ℕ × ℕ × ℕ)
        ≠ (B1 - min A1 B1, B2 - min A2 B2, B3 - min A3 B3) := by
      intro h
      simp only [Prod.mk.injEq] at h
      exact hABc ⟨by omega, by omega, by omega⟩
    obtain ⟨k, hkm⟩ := coordOffsets_match_exists
      (A1 - min A1 B1) (A2 - min A2 B2) (A3 - min A3 B3)
      (B1 - min A1 B1) (B2 - min A2 B2) (B3 - min A3 B3)
      (by omega) (by omega) (by omega) (by omega) (by omega) (by omega)
      hneuv (by omega) (by omega) (by omega)
    have hk1 : 1 ≤ k.1 := by
      by_contra hk0
      have hz : k.1 = 0 := by omega
      rcases hkm with h | h <;>
        · rw [hz] at h
          have h' : (((0, 0, 0), (0, 0, 0)) :
              (ℕ × ℕ × ℕ) × (ℕ × ℕ × ℕ)) = _ := h
          simp only [Prod.mk.injEq] at h'
          exact hneuv (by
            obtain ⟨⟨e1, e2, e3⟩, ⟨f1, f2, f3⟩⟩ := h'
            simp only [Prod.mk.injEq]
            omega)
    have hAeq : ((A1, A2, A3) : ℕ × ℕ × ℕ)
        = cadd (min A1 B1, min A2 B2, min A3 B3)
            (A1 - min A1 B1, A2 - min A2 B2, A3 - min A3 B3) := by
      simp only [cadd, Prod.mk.injEq]
      exact ⟨by omega, by omega, by omega⟩
    have hBeq : ((B1, B2, B3) : ℕ × ℕ × ℕ)
        = cadd (min A1 B1, min A2 B2, min A3 B3)
            (B1 - min A1 B1, B2 - min A2 B2, B3 - min A3 B3) := by
      simp only [cadd, Prod.mk.injEq]
      exact ⟨by omega, by omega, by omega⟩
    refine ⟨((min A1 B1, min A2 B2, min A3 B3), k.1), ⟨hmin, k.isLt, ?_⟩, ?_⟩
    · -- the chosen entry schedules the pair
      rw [taskAt_pair_eq dims _ hmin k.1 hk1 k.isLt]
      rcases hkm with h | h
      · rw [h]
        exact Or.inl (by rw [hAeq, hBeq])
      · rw [h]
        exact Or.inr (by rw [hAeq, hBeq])
    · -- uniqueness
      rintro ⟨b', k'⟩ ⟨hb', hk', hsched⟩
      rcases Nat.eq_zero_or_pos k' with hz | hpos
      · rw [hz, taskAt_zero dims (flatIndex dims b')] at hsched
        rcases hsched with h | h <;> exact absurd h (by simp)
      · have hk1' : 1 ≤ k' := hpos
        obtain ⟨hne', hp1, hp2, hp3, hq1, hq2, hq3, hm1', hm2', hm3'⟩ :=
          coordOffsets_props k' hk' hk1'
        rw [taskAt_pair_eq dims b' hb' k' hk1' hk'] at hsched
        obtain ⟨b'1, b'2, b'3⟩ := b'
        have hbg1 := cadd_inGrid dims (b'1, b'2, b'3) _ hb' hp1 hp2 hp3
        have hbg2 := cadd_inGrid dims (b'1, b'2, b'3) _ hb' hq1 hq2 hq3
        rcases hsched with h | h
        · have hinj := C08Task.pairT.inj h
          have e1 := flatIndex_inj dims _ _ hbg1 ⟨hA1', hA2', hA3'⟩ hinj.1
          have e2 := flatIndex_inj dims _ _ hbg2 ⟨hB1', hB2', hB3'⟩ hinj.2
          simp only [cadd, Prod.mk.injEq] at e1 e2
          obtain ⟨c1, c2, c3⟩ := e1
          obtain ⟨d1, d2, d3⟩ := e2
          have hbm1 : b'1 = min A1 B1 := by omega
          have hbm2 : b'2 = min A2 B2 := by omega
          have hbm3 : b'3 = min A3 B3 := by omega
          have hpq : coordOffsets.getD k' ((0, 0, 0), (0, 0, 0))
              = ((A1 - min A1 B1, A2 - min A2 B2, A3 - min A3 B3),
                 (B1 - min A1 B1, B2 - min A2 B2, B3 - min A3 B3)) := by
            have hfst : (coordOffsets.getD k' ((0, 0, 0), (0, 0, 0))).1
                = (A1 - min A1 B1, A2 - min A2 B2, A3 - min A3 B3) := by
              have : (coordOffsets.getD k' ((0, 0, 0), (0, 0, 0))).1
                  = ((coordOffsets.getD k' ((0, 0, 0), (0, 0, 0))).1.1,
                     (coordOffsets.getD k' ((0, 0, 0), (0, 0, 0))).1.2.1,
                     (coordOffsets.getD k' ((0, 0, 0), (0, 0, 0))).1.2.2) := rfl
              rw [this]
              simp only [Prod.mk.injEq]
              exact ⟨by omega, by omega, by omega⟩
            have hsnd : (coordOffsets.getD k' ((0, 0, 0), (0, 0, 0))).2
                = (B1 - min A1 B1, B2 - min A2 B2, B3 - min A3 B3) := by
              have : (coordOffsets.getD k' ((0, 0, 0), (0, 0, 0))).2
                  = ((coordOffsets.getD k' ((0, 0, 0), (0, 0, 0))).2.1,
                     (coordOffsets.getD k' ((0, 0, 0), (0, 0, 0))).2.2.1,
                     (coordOffsets.getD k' ((0, 0, 0), (0, 0, 0))).2.2.2) := rfl
              rw [this]
              simp only [Prod.mk.injEq]
              exact ⟨by omega, by omega, by omega⟩
            rw [← hfst, ← hsnd]
          have hmm : matchesAt ⟨k', hk'⟩
              (A1 - min A1 B1, A2 - min A2 B2, A3 - min A3 B3)
              (B1 - min A1 B1, B2 - min A2 B2, B3 - min A3 B3) :=
            Or.inl hpq
          have hkk := coordOffsets_match_unique
            (A1 - min A1 B1) (A2 - min A2 B2) (A3 - min A3 B3)
            (B1 - min A1 B1) (B2 - min A2 B2) (B3 - min A3 B3)
            (by omega) (by omega) (by omega) (by omega) (by omega) (by omega)
            ⟨k', hk'⟩ k hmm hkm
          have hkval : k' = k.1 := congrArg Fin.val hkk
          simp only [Prod.mk.injEq]
          exact ⟨⟨hbm1, hbm2, hbm3⟩, hkval⟩
        · have hinj := C08Task.pairT.inj h
          have e1 := flatIndex_inj dims _ _ hbg1 ⟨hB1', hB2', hB3'⟩ hinj.1
          have e2 := flatIndex_inj dims _ _ hbg2 ⟨hA1', hA2', hA3'⟩ hinj.2
          simp only [cadd, Prod.mk.injEq] at e1 e2
          obtain ⟨c1, c2, c3⟩ := e1
          obtain ⟨d1, d2, d3⟩ := e2
          have hbm1 : b'1 = min A1 B1 := by omega
          have hbm2 : b'2 = min A2 B2 := by omega
          have hbm3 : b'3 = min A3 B3 := by omega
          have hpq : coordOffsets.getD k' ((0, 0, 0), (0, 0, 0))
              = ((B1 - min A1 B1, B2 - min A2 B2, B3 - min A3 B3),
                 (A1 - min A1 B1, A2 - min A2 B2, A3 - min A3 B3)) := by
            have hfst : (coordOffsets.getD k' ((0, 0, 0), (0, 0, 0))).1
                = (B1 - min A1 B1, B2 - min A2 B2, B3 - min A3 B3) := by
              have : (coordOffsets.getD k' ((0, 0, 0), (0, 0, 0))).1
                  = ((coordOffsets.getD k' ((0, 0, 0), (0, 0, 0))).1.1,
                     (coordOffsets.getD k' ((0, 0, 0), (0, 0, 0))).1.2.1,
                     (coordOffsets.getD k' ((0, 0, 0), (0, 0, 0))).1.2.2) := rfl
              rw [this]
              simp only [Prod.mk.injEq]
              exact ⟨by omega, by omega, by omega⟩
            have hsnd : (coordOffsets.getD k' ((0, 0, 0), (0, 0, 0))).2
                = (A1 - min A1 B1, A2 - min A2 B2, A3 - min A3 B3) := by
              have : (coordOffsets.getD k' ((0, 0, 0), (0, 0, 0))).2
                  = ((coordOffsets.getD k' ((0, 0, 0), (0, 0, 0))).2.1,
                     (coordOffsets.getD k' ((0, 0, 0), (0, 0, 0))).2.2.1,
                     (coordOffsets.getD k' ((0, 0, 0), (0, 0, 0))).2.2.2) := rfl
              rw [this]
              simp only [Prod.mk.injEq]
              exact ⟨by omega, by omega, by omega⟩
            rw [← hfst, ← hsnd]
          have hmm : matchesAt ⟨k', hk'⟩
              (A1 - min A1 B1, A2 - min A2 B2, A3 - min A3 B3)
              (B1 - min A1 B1, B2 - min A2 B2, B3 - min A3 B3) :=
            Or.inr hpq
          have hkk := coordOffsets_match_unique
            (A1 - min A1 B1) (A2 - min A2 B2) (A3 - min A3 B3)
            (B1 - min A1 B1) (B2 - min A2 B2) (B3 - min A3 B3)
            (by omega) (by omega) (by omega) (by omega) (by omega) (by omega)
            ⟨k', hk'⟩ k hmm hkm
          have hkval : k' = k.1 := congrArg Fin.val hkk
          simp only [Prod.mk.injEq]
          exact ⟨⟨hbm1, hbm2, hbm3⟩, hkval⟩
  · -- self coverage
    intro Cc hc
    refine ⟨(Cc, 0), ⟨hc, by omega, taskAt_zero dims (flatIndex dims Cc)⟩, ?_⟩
    rintro ⟨b', k'⟩ ⟨hb', hk', htask⟩
    rcases Nat.eq_zero_or_pos k' with hz | hpos
    · rw [hz, taskAt_zero dims (flatIndex dims b')] at htask
      have hflat := C08Task.self.inj htask
      have := flatIndex_inj dims b' Cc (baseRange_inGrid dims b' hb')
        (baseRange_inGrid dims Cc hc) hflat
      simp only [Prod.mk.injEq]
      exact ⟨this, hz⟩
    · rw [taskAt_pair_eq dims b' hb' k' hpos hk'] at htask
      exact absurd htask (by simp)

/-- C1 counterexample: in a 2x2x2 grid the 3x3x3-adjacent cells `(1,0,0)` and
`(1,1,0)` (both inside the far x-face, flat indices 1 and 3) are NOT scheduled
by any base cell of the traversed range — the claim that every unordered pair
of adjacent cells is covered exactly once fails for pairs lying in the far
boundary layer. -/
theorem c08_coverage_counterexample :
    ¬ (∀ A B : ℕ × ℕ × ℕ, inGrid (2, 2, 2) A → inGrid (2, 2, 2) B →
      adjacent3 A B → A ≠ B →
      ∃ bk : (ℕ × ℕ × ℕ) × ℕ, inBaseRange (2, 2, 2) bk.1 ∧ bk.2 < 14 ∧
        schedulesPair (taskAt (2, 2, 2) (flatIndex (2, 2, 2) bk.1) bk.2)
          (flatIndex (2, 2, 2) A) (flatIndex (2, 2, 2) B)) := by
  intro h
  obtain ⟨⟨⟨b1, b2, b3⟩, k⟩, hbr, hk, hsched⟩ :=
    h (1, 0, 0) (1, 1, 0) (by decide) (by decide) (by decide) (by decide)
  obtain ⟨h1, h2, h3⟩ := hbr
  have h1' : b1 + 1 < 2 := h1
  have h2' : b2 + 1 < 2 := h2
  have h3' : b3 + 1 < 2 := h3
  have hb1 : b1 = 0 := by omega
  have hb2 : b2 = 0 := by omega
  have hb3 : b3 = 0 := by omega
  subst hb1
  subst hb2
  subst hb3
  have hnone : ∀ j : Fin 14,
      ¬ schedulesPair (taskAt (2, 2, 2) (flatIndex (2, 2, 2) (0, 0, 0)) j.1)
        (flatIndex (2, 2, 2) (1, 0, 0)) (flatIndex (2, 2, 2) (1, 1, 0)) := by
    decide
  exact hnone ⟨k, hk⟩ hsched

/-- Witness for the amended C1 in a 3x3x3 grid: the base step at the origin
and the unique scheduling of the pair `{(0,0,0), (1,1,1)}` and of the self
task of the origin. -/
theorem c08_base_step_correct_witness :
    ((processBaseCell (3, 3, 3) (flatIndex (3, 3, 3) (0, 0, 0))).length = 14 ∧
      taskAt (3, 3, 3) (flatIndex (3, 3, 3) (0, 0, 0)) 0
        = C08Task.self (flatIndex (3, 3, 3) (0, 0, 0)) ∧
      (∀ k, 1 ≤ k → k < 14 → ∃ u v : ℕ × ℕ × ℕ,
        u.1 ≤ 1 ∧ u.2.1 ≤ 1 ∧ u.2.2 ≤ 1 ∧ v.1 ≤ 1 ∧ v.2.1 ≤ 1 ∧ v.2.2 ≤ 1 ∧
        u ≠ v ∧ taskAt (3, 3, 3) (flatIndex (3, 3, 3) (0, 0, 0)) k
          = C08Task.pairT (flatIndex (3, 3, 3) (cadd (0, 0, 0) u))
              (flatIndex (3, 3, 3) (cadd (0, 0, 0) v)))) ∧
    (∃! bk : (ℕ × ℕ × ℕ) × ℕ, inBaseRange (3, 3, 3) bk.1 ∧ bk.2 < 14 ∧
      schedulesPair (taskAt (3, 3, 3) (flatIndex (3, 3, 3) bk.1) bk.2)
        (flatIndex (3, 3, 3) (0, 0, 0)) (flatIndex (3, 3, 3) (1, 1, 1))) ∧
    (∃! bk : (ℕ × ℕ × ℕ) × ℕ, inBaseRange (3, 3, 3) bk.1 ∧ bk.2 < 14 ∧
      taskAt (3, 3, 3) (flatIndex (3, 3, 3) bk.1) bk.2
        = C08Task.self (flatIndex (3, 3, 3) (1, 1, 1))) :=
  ⟨(c08_base_step_correct (3, 3, 3) (by decide) (by decide) (by decide)).1
      (0, 0, 0) (by decide),
   (c08_base_step_correct (3, 3, 3) (by decide) (by decide) (by decide)).2.1
      (0, 0, 0) (1, 1, 1) (by decide) (by decide) (by decide) (by decide)
      (by decide),
   (c08_base_step_correct (3, 3, 3) (by decide) (by decide) (by decide)).2.2
      (1, 1, 1) (by decide)⟩
